import Mathlib

/-!
Verification of the provider-orchestration and streaming core of the
`codev` crates (crates/codev-core/src/ai/{mod,manager,engine,streaming}.rs,
crates/codev-core/src/ai/providers/{mod,ollama}.rs and the shared types of
crates/codev-shared).

Modelling conventions (shallow embedding):
* Rust `HashMap`s are modelled as association lists; the list order stands
  for the map's iteration order.  For a `std` `HashMap` that order is
  arbitrary per map instance and bears no relation to insertion order:
  `HashMap::insert` on a present key overwrites in place (keeping the
  entry's iteration position), and on a fresh key the model appends, which
  fixes one representative iteration order.  Any permutation of the
  entries is an equally legitimate model of the same map, so the list
  position of an entry must never be read as its registration rank (see
  the C1 counterexample).
* Rust `String` text is modelled as `List Char`; `str::len()` (a byte
  count) is `utf8Len`, `str::chars().take(n)` is `List.take n`.
* `f32` fields (`temperature`, `top_p`, …) are carried as their IEEE-754
  bit patterns (a `Nat < 2^32`): the modelled code never computes with
  them, it only stores, compares and hashes them (`f32::to_bits`).
* `Instant`-based staleness (`last_check.elapsed() < interval`) is
  modelled by a `Bool` freshness flag on each health-cache entry.
* Network effects are modelled by oracles: each provider value carries the
  outcome its `health_check` / `generate` calls would produce.
* Fallible Rust code (`Result<T>`) becomes `Except CodevError T`.
-/

/-- codev-shared/src/types.rs: provider identifiers (declaration order). -/
inductive ProviderId where
  | Ollama
  | OpenAI
  | Claude
  | Mistral
  | Gemini
deriving DecidableEq, Repr

/-- codev-shared/src/types.rs: `Display` for `ProviderId`. -/
def ProviderId.display : ProviderId → String
  | .Ollama => "ollama"
  | .OpenAI => "Openai"
  | .Claude => "claude"
  | .Mistral => "mistral"
  | .Gemini => "gemini"

/-- codev-shared/src/types.rs: runtime environment marker. -/
inductive Environment where
  | Development
  | Production
  | Testing
deriving DecidableEq, Repr

/-- codev-core/src/ai/mod.rs: health status of a provider. -/
inductive HealthStatus where
  | Healthy
  | Degraded (reason : String)
  | Unhealthy (error : String)
deriving DecidableEq, Repr

/-- codev-core/src/ai/mod.rs: `HealthStatus::is_healthy`
(`matches!(self, HealthStatus::Healthy)`). -/
def HealthStatus.is_healthy : HealthStatus → Bool
  | .Healthy => true
  | _ => false

/-- codev-core/src/ai/mod.rs: `HealthStatus::is_available`
(`!matches!(self, HealthStatus::Unhealthy { .. })`). -/
def HealthStatus.is_available : HealthStatus → Bool
  | .Unhealthy _ => false
  | _ => true

/-- codev-core/src/ai/mod.rs: task classification of a request
(declaration order fixes the enum discriminants 0..6). -/
inductive TaskType where
  | Chat
  | CodeGeneration
  | CodeAnalysis
  | CodeReview
  | Documentation
  | Debugging
  | Refactoring
deriving DecidableEq, Repr

/-- codev-core/src/ai/mod.rs: priority tier of a request. -/
inductive Priority where
  | Low
  | Normal
  | High
  | Critical
deriving DecidableEq, Repr

/-- codev-core/src/ai/mod.rs: generation options.  The `f32` fields hold
IEEE-754 bit patterns (see file header). -/
structure GenerationOptions where
  max_tokens : Option Nat
  temperature : Option Nat
  top_p : Option Nat
  frequency_penalty : Option Nat
  presence_penalty : Option Nat
  stop : Option (List String)
  stream : Bool
deriving DecidableEq, Repr

/-- codev-core/src/ai/mod.rs: `GenerationOptions::default()`
(0x3DCCCCCD and 0x3F666666 are the bit patterns of 0.1f32 and 0.9f32). -/
def GenerationOptions.default : GenerationOptions where
  max_tokens := some 4096
  temperature := some 0x3DCCCCCD
  top_p := some 0x3F666666
  frequency_penalty := none
  presence_penalty := none
  stop := none
  stream := false

/-- codev-shared/src/error.rs: the `CodevError` variants reachable from the
modelled core (the remaining variants are never produced by it). -/
inductive CodevError where
  | Config (message : String)
  | LlmProvider (provider : ProviderId) (message : String)
  | Network (message : String)
  | Internal (message : String)
deriving DecidableEq, Repr

/-- codev-shared/src/error.rs: the `Display` text of a `CodevError`
(thiserror `#[error(...)]` attributes), for the modelled variants. -/
def CodevError.display : CodevError → String
  | .Config m => "Configuration error: " ++ m
  | .LlmProvider p m => "LLM provider error: " ++ p.display ++ " - " ++ m
  | .Network m => "Network error: " ++ m
  | .Internal m => "Internal error: " ++ m

/-- codev-core/src/ai/mod.rs: `AiError`. -/
inductive AiError where
  | ProviderNotAvailable (provider : ProviderId)
  | NoProviderAvailable
  | ContextTooLong (tokens max_tokens : Nat)
  | RateLimited (provider : ProviderId)
  | InvalidApiKey (provider : ProviderId)
  | ModelNotFound (provider : ProviderId) (model : String)
  | StreamingError (message : String)
  | NetworkTimeout (provider : ProviderId)
  | ServerError (provider : ProviderId) (status : Nat) (message : String)
deriving DecidableEq, Repr

/-- codev-core/src/ai/mod.rs: `Display for AiError`. -/
def AiError.display : AiError → String
  | .ProviderNotAvailable p => "provider '" ++ p.display ++ "' is not available"
  | .NoProviderAvailable => "no AI provider is currently available"
  | .ContextTooLong t m =>
      "context too long: " ++ toString t ++ " tokens > " ++ toString m ++ " max"
  | .RateLimited p => "Rate limited by provider: " ++ p.display
  | .InvalidApiKey p => "Invalid API key for provider " ++ p.display
  | .ModelNotFound p m => "Model '" ++ m ++ "' not found for provider " ++ p.display
  | .StreamingError m => "Streaming error: " ++ m
  | .NetworkTimeout p => "Network timeout for provider " ++ p.display
  | .ServerError p s m =>
      "Server error from " ++ p.display ++ ": " ++ toString s ++ " - " ++ m

/-- codev-core/src/ai/mod.rs: `impl From<AiError> for CodevError`. -/
def AiError.toCodevError : AiError → CodevError
  | .ProviderNotAvailable p => .LlmProvider p "Provider not available"
  | e => .LlmProvider .Ollama e.display

/-! ## Text as char lists -/

/-- The UTF-8 byte length of a char list — Rust's `str::len()`. -/
def utf8Len (t : List Char) : Nat := (t.map Char.utf8Size).sum

/-! ## codev-core/src/ai/streaming.rs -/

instance {ε α : Type} [DecidableEq ε] [DecidableEq α] : DecidableEq (Except ε α)
  | .ok a, .ok b =>
      if h : a = b then .isTrue (by rw [h]) else .isFalse (by simp [h])
  | .ok _, .error _ => .isFalse (by simp)
  | .error _, .ok _ => .isFalse (by simp)
  | .error e, .error f =>
      if h : e = f then .isTrue (by rw [h]) else .isFalse (by simp [h])

/-- One item of a fragment sequence: `Result<String>` in the source. -/
abbrev Chunk := Except CodevError (List Char)

/-- streaming.rs `estimate_token_count`: `(text.len() / 4).max(1)`. -/
def estimate_token_count (text : List Char) : Nat :=
  Nat.max (utf8Len text / 4) 1

/-- streaming.rs `TokenStream::poll_next`, run to exhaustion over a finite
upstream fragment list, starting from buffer contents `buffer`.  An `Ok`
chunk is appended to the buffer and the buffer is emitted once its byte
length reaches `buffer_size`; an `Err` chunk is emitted and marks the
stream complete (the buffered text is dropped and the upstream is not
polled again); upstream exhaustion flushes a non-empty buffer. -/
def tokenStreamRun (buffer_size : Nat) (buffer : List Char) :
    List Chunk → List Chunk
  | [] => if buffer.isEmpty then [] else [.ok buffer]
  | .ok chunk :: rest =>
      let buf := buffer ++ chunk
      if buffer_size ≤ utf8Len buf then
        .ok buf :: tokenStreamRun buffer_size [] rest
      else
        tokenStreamRun buffer_size buf rest
  | .error e :: _ => [.error e]

/-- streaming.rs `StreamUtils::take_tokens`: the `scan` closure, run over a
finite upstream list with accumulator `tokens_seen = seen`.  Returns the
emitted fragments together with the number of upstream fragments the scan
consumed before terminating (the scan stops only when the closure returns
`None`, which requires consuming one more upstream fragment). -/
def take_tokens_go (max_tokens seen : Nat) : List Chunk → List Chunk × Nat
  | [] => ([], 0)
  | .error e :: rest =>
      (.error e :: (take_tokens_go max_tokens seen rest).1,
       (take_tokens_go max_tokens seen rest).2 + 1)
  | .ok text :: rest =>
      let chunk_tokens := estimate_token_count text
      let seen' := seen + chunk_tokens
      if seen' ≤ max_tokens then
        (.ok text :: (take_tokens_go max_tokens seen' rest).1,
         (take_tokens_go max_tokens seen' rest).2 + 1)
      else if seen' - chunk_tokens < max_tokens then
        let chars_to_take :=
          Nat.min ((max_tokens - (seen' - chunk_tokens)) * 4) (utf8Len text)
        (.ok (text.take chars_to_take) :: (take_tokens_go max_tokens seen' rest).1,
         (take_tokens_go max_tokens seen' rest).2 + 1)
      else ([], 1)

/-- streaming.rs `StreamUtils::take_tokens` over a finite upstream list:
emitted fragments and upstream fragments consumed. -/
def take_tokens (max_tokens : Nat) (l : List Chunk) : List Chunk × Nat :=
  take_tokens_go max_tokens 0 l

/-- Cumulative approximate token count of the `Ok` fragments of a sequence
(`tokens_seen` accounting of the source). -/
def tokenSum (l : List Chunk) : Nat :=
  l.foldr (fun c acc => match c with
    | .ok t => estimate_token_count t + acc
    | .error _ => acc) 0

/-- The text of an `Ok` fragment consists of single-byte (ASCII) chars. -/
def asciiChunk : Chunk → Bool
  | .ok t => t.all (fun ch => ch.utf8Size == 1)
  | .error _ => true

/-- All chars of every `Ok` fragment are single-byte (ASCII) chars. -/
def asciiChunks (l : List Chunk) : Prop :=
  ∀ c ∈ l, asciiChunk c = true

instance (l : List Chunk) : Decidable (asciiChunks l) :=
  inferInstanceAs (Decidable (∀ c ∈ l, asciiChunk c = true))

/-! ## Association-list model of `HashMap` -/

/-- Lookup by key: the first entry with the given key. -/
def assocGet {α β : Type} [DecidableEq α] (l : List (α × β)) (k : α) : Option β :=
  match l with
  | [] => none
  | (k', v) :: t => if k' = k then some v else assocGet t k

/-- `HashMap::insert`: overwrite in place if the key is present, otherwise
append the new entry. -/
def assocInsert {α β : Type} [DecidableEq α] (k : α) (v : β) :
    List (α × β) → List (α × β)
  | [] => [(k, v)]
  | (k', v') :: t =>
      if k' = k then (k, v) :: t else (k', v') :: assocInsert k v t

/-- `HashMap::remove`: drop the (first) entry with the given key. -/
def assocErase {α β : Type} [DecidableEq α] (k : α) :
    List (α × β) → List (α × β)
  | [] => []
  | (k', v') :: t => if k' = k then t else (k', v') :: assocErase k t

/-! ## SipHash-1-3 (Rust's `DefaultHasher` with zero keys)

`std::collections::hash_map::DefaultHasher::new()` is SipHash-1-3 with the
key `(0, 0)`.  `Hasher::write*` absorb a byte stream: `write` appends raw
bytes, `write_u8`/`write_u32`/`write_usize` append 1/4/8 little-endian
bytes.  `finish()` hashes the stream: 8-byte little-endian words, one
SipRound per word, a final word carrying `len % 256` in its top byte, then
`v2 ^= 0xff` and three finalization rounds. -/

/-- 64-bit wrap-around. -/
def wrap64 (n : Nat) : Nat := n % (2 ^ 64)

/-- 64-bit rotate left of `x < 2^64` by `r` bits (`0 < r < 64`). -/
def rotl64 (x r : Nat) : Nat := wrap64 (x <<< r) ||| (x >>> (64 - r))

/-- The four 64-bit state words of SipHash. -/
structure SipState where
  v0 : Nat
  v1 : Nat
  v2 : Nat
  v3 : Nat
deriving DecidableEq, Repr

/-- One SipRound. -/
def sipRound (s : SipState) : SipState :=
  let v0 := wrap64 (s.v0 + s.v1)
  let v1 := rotl64 s.v1 13
  let v1 := v1 ^^^ v0
  let v0 := rotl64 v0 32
  let v2 := wrap64 (s.v2 + s.v3)
  let v3 := rotl64 s.v3 16
  let v3 := v3 ^^^ v2
  let v0 := wrap64 (v0 + v3)
  let v3 := rotl64 v3 21
  let v3 := v3 ^^^ v0
  let v2 := wrap64 (v2 + v1)
  let v1 := rotl64 v1 17
  let v1 := v1 ^^^ v2
  let v2 := rotl64 v2 32
  ⟨v0, v1, v2, v3⟩

/-- Absorb one 64-bit message word (SipHash-1-3: one round per word). -/
def sipCompress (s : SipState) (m : Nat) : SipState :=
  let s := { s with v3 := s.v3 ^^^ m }
  let s := sipRound s
  { s with v0 := s.v0 ^^^ m }

/-- Little-endian word value of a byte list (first byte least significant). -/
def leWord (bytes : List Nat) : Nat :=
  bytes.foldr (fun b acc => b + 256 * acc) 0

/-- Absorb all full 8-byte words of the stream; return the final state and
the remaining (at most 7) bytes. -/
def sipProcess (s : SipState) : List Nat → SipState × List Nat
  | b0 :: b1 :: b2 :: b3 :: b4 :: b5 :: b6 :: b7 :: rest =>
      sipProcess (sipCompress s (leWord [b0, b1, b2, b3, b4, b5, b6, b7])) rest
  | rest => (s, rest)

/-- SipHash-1-3 of a byte stream under key `(k0, k1)`. -/
def sipHash13 (k0 k1 : Nat) (data : List Nat) : Nat :=
  let s0 : SipState :=
    ⟨k0 ^^^ 0x736f6d6570736575, k1 ^^^ 0x646f72616e646f6d,
     k0 ^^^ 0x6c7967656e657261, k1 ^^^ 0x7465646279746573⟩
  let s1 := (sipProcess s0 data).1
  let rem := (sipProcess s0 data).2
  let b := ((data.length % 256) <<< 56) ||| leWord rem
  let s2 := sipCompress s1 b
  let s3 := { s2 with v2 := s2.v2 ^^^ 0xff }
  let s4 := sipRound (sipRound (sipRound s3))
  s4.v0 ^^^ s4.v1 ^^^ s4.v2 ^^^ s4.v3

/-- UTF-8 encoding of one char (the bytes `String::as_bytes` yields). -/
def charUtf8Bytes (c : Char) : List Nat :=
  let v := c.toNat
  if v < 0x80 then [v]
  else if v < 0x800 then
    [0xC0 ||| (v >>> 6), 0x80 ||| (v &&& 0x3F)]
  else if v < 0x10000 then
    [0xE0 ||| (v >>> 12), 0x80 ||| ((v >>> 6) &&& 0x3F), 0x80 ||| (v &&& 0x3F)]
  else
    [0xF0 ||| (v >>> 18), 0x80 ||| ((v >>> 12) &&& 0x3F),
     0x80 ||| ((v >>> 6) &&& 0x3F), 0x80 ||| (v &&& 0x3F)]

/-- UTF-8 bytes of a string. -/
def stringUtf8Bytes (s : String) : List Nat :=
  s.data.flatMap charUtf8Bytes

/-- Little-endian bytes of a `u32` value. -/
def u32LEBytes (n : Nat) : List Nat :=
  [n % 256, n / 256 % 256, n / 65536 % 256, n / 16777216 % 256]

/-- Little-endian bytes of a `u64`/`usize` value. -/
def u64LEBytes (n : Nat) : List Nat :=
  [n % 256, n >>> 8 % 256, n >>> 16 % 256, n >>> 24 % 256,
   n >>> 32 % 256, n >>> 40 % 256, n >>> 48 % 256, n >>> 56 % 256]

/-- Enum discriminant of `TaskType` (declaration order). -/
def TaskType.discriminant : TaskType → Nat
  | .Chat => 0
  | .CodeGeneration => 1
  | .CodeAnalysis => 2
  | .CodeReview => 3
  | .Documentation => 4
  | .Debugging => 5
  | .Refactoring => 6

/-- Lowercase-hex rendering of a `Nat` (Rust's `{:x}`). -/
def natToHex (n : Nat) : String := String.mk (Nat.toDigits 16 n)

/-! ## codev-core/src/ai/engine.rs -/

/-- engine.rs `estimate_tokens`: `(text.len() / 4).max(1)` on a `String`. -/
def estimate_tokens (text : String) : Nat :=
  Nat.max (utf8Len text.data / 4) 1

/-- codev-core/src/ai/mod.rs: `UsageStats` (`estimated_cost: Option<f64>`
is always `None` on the modelled path and carried as an `Option Nat` bit
pattern). -/
structure UsageStats where
  prompt_tokens : Nat
  completion_tokens : Nat
  total_tokens : Nat
  estimated_cost : Option Nat
deriving DecidableEq, Repr

/-- codev-core/src/ai/mod.rs: `AiRequest`.  The `context` field is omitted:
it is never consulted by `process_request` or `cache_key`. -/
structure AiRequest where
  prompt : String
  task_type : TaskType
  options : GenerationOptions
  priority : Priority
deriving DecidableEq, Repr

/-- codev-core/src/ai/mod.rs: `AiResponse`.  The `metadata` field
(wall-clock `response_time`, …) is omitted: real time is outside the
embedding and no modelled code path reads it. -/
structure AiResponse where
  content : String
  provider : ProviderId
  model : String
  usage : UsageStats
deriving DecidableEq, Repr

/-- engine.rs `cache_key`: the byte stream fed to the `DefaultHasher` —
`prompt` hashed as a `str` (its UTF-8 bytes then a `0xff` terminator),
`task_type` hashed via its discriminant (8 little-endian bytes; the enum
needs a `Hash` impl, which `derive(Hash)` would provide this way), then,
when present, `temperature.to_bits()` (4 bytes) and `max_tokens`
(8 bytes). -/
def cacheHashStream (request : AiRequest) : List Nat :=
  stringUtf8Bytes request.prompt ++ [0xff]
  ++ u64LEBytes request.task_type.discriminant
  ++ (match request.options.temperature with
      | some bits => u32LEBytes bits
      | none => [])
  ++ (match request.options.max_tokens with
      | some max_tokens => u64LEBytes max_tokens
      | none => [])

/-- engine.rs `cache_key`: `format!("cache_{:x}", hasher.finish())` with a
fresh `DefaultHasher` (SipHash-1-3, zero key). -/
def cache_key (request : AiRequest) : String :=
  "cache_" ++ natToHex (sipHash13 0 0 (cacheHashStream request))

/-- engine.rs `RequestCache`. -/
structure RequestCache where
  cache : List (String × AiResponse)
  max_size : Nat
deriving DecidableEq, Repr

/-- engine.rs `RequestCache::new()`. -/
def RequestCache.new : RequestCache where
  cache := []
  max_size := 1000

/-- engine.rs `RequestCache::get`. -/
def RequestCache.get (c : RequestCache) (key : String) : Option AiResponse :=
  assocGet c.cache key

/-- engine.rs `RequestCache::insert`: at capacity, remove the first key
returned by key iteration, then insert. -/
def RequestCache.insert (c : RequestCache) (key : String)
    (response : AiResponse) : RequestCache :=
  let cache :=
    if c.max_size ≤ c.cache.length then
      match c.cache.head? with
      | some (oldest_key, _) => assocErase oldest_key c.cache
      | none => c.cache
    else c.cache
  { c with cache := assocInsert key response cache }

/-! ## codev-core/src/ai/providers/mod.rs -/

/-- A trait object implementing `LlmProvider`: its identity and metadata
plus oracles giving the outcomes of its effectful calls (`health_check`,
`generate`). -/
structure LlmProviderObj where
  id : ProviderId
  name : String
  is_available : Bool
  health_check : Except CodevError HealthStatus
  generate : String → GenerationOptions → Except CodevError String

/-- providers/mod.rs `ProviderConfig`. -/
structure ProviderConfig where
  enabled : Bool
  model : String
  endpoint : Option String
  max_tokens : Option Nat
  temperature : Option Nat
  timeout_seconds : Option Nat
  max_retries : Option Nat
deriving DecidableEq, Repr

/-- providers/mod.rs `ProviderRegistry`. -/
structure ProviderRegistry where
  providers : List (ProviderId × LlmProviderObj)
  configs : List (ProviderId × ProviderConfig)

/-- providers/mod.rs `ProviderRegistry::new()`. -/
def ProviderRegistry.new : ProviderRegistry where
  providers := []
  configs := []

/-- providers/mod.rs `ProviderRegistry::register`: idempotent overwrite by
identity in both maps.  A fresh entry is appended here, but in the real
`HashMap` it may land anywhere in iteration order — the resulting list
order is one representative iteration order, not registration order. -/
def ProviderRegistry.register (r : ProviderRegistry)
    (provider : LlmProviderObj) (config : ProviderConfig) : ProviderRegistry where
  providers := assocInsert provider.id provider r.providers
  configs := assocInsert provider.id config r.configs

/-- providers/mod.rs `ProviderRegistry::get`. -/
def ProviderRegistry.get (r : ProviderRegistry) (id : ProviderId) :
    Option LlmProviderObj :=
  assocGet r.providers id

/-- providers/mod.rs `ProviderRegistry::is_enabled`:
`configs.get(id).map(|c| c.enabled).unwrap_or(false)`. -/
def ProviderRegistry.is_enabled (r : ProviderRegistry) (id : ProviderId) : Bool :=
  ((assocGet r.configs id).map (·.enabled)).getD false

/-- providers/mod.rs `ProviderRegistry::enabled_providers`: the registered
providers whose config is enabled, in the map's iteration order (arbitrary
per `HashMap` instance). -/
def ProviderRegistry.enabled_providers (r : ProviderRegistry) :
    List LlmProviderObj :=
  (r.providers.filter
    (fun pr => ((assocGet r.configs pr.1).map (·.enabled)).getD false)).map (·.2)

/-- providers/mod.rs `ProviderFactory::create_all_providers`: walk the
config map, skip disabled entries, build each enabled provider through
`create_provider` (abstracted as the oracle `build`, which may fail, e.g.
on a missing API key) and register the successes; a failed build is logged
and skipped, never failing the whole construction. -/
def create_all_providers
    (build : ProviderId → ProviderConfig → Except CodevError LlmProviderObj)
    (configs : List (ProviderId × ProviderConfig)) : ProviderRegistry :=
  configs.foldl
    (fun registry idcfg =>
      if idcfg.2.enabled then
        match build idcfg.1 idcfg.2 with
        | .ok provider => registry.register provider idcfg.2
        | .error _ => registry
      else registry)
    ProviderRegistry.new

/-! ## codev-core/src/ai/manager.rs -/

/-- manager.rs `LlmManager`.  `health_status` maps a provider to its last
verdict plus a freshness flag (`true` iff `last_check.elapsed()` is below
`health_check_interval`).  `codev_local_env_var` models whether the
`CODEV_LOCAL` process environment variable is set. -/
structure LlmManager where
  registry : ProviderRegistry
  current_provider : Option ProviderId
  fallback_chain : List ProviderId
  environment : Environment
  auto_detect : Bool
  codev_local_env_var : Bool
  health_status : List (ProviderId × HealthStatus × Bool)

/-- manager.rs `LlmManager::is_ollama_available`. -/
def LlmManager.is_ollama_available (st : LlmManager) : Bool :=
  match st.registry.get .Ollama with
  | some provider => provider.is_available
  | none => false

/-- manager.rs `LlmManager::is_local_environment`. -/
def LlmManager.is_local_environment (st : LlmManager) : Bool :=
  st.environment = .Development || st.codev_local_env_var
    || st.is_ollama_available

/-- manager.rs `LlmManager::perform_health_check`: probe the provider's
`health_check`, cache the verdict with a fresh timestamp (a failed check is
cached as `Unhealthy { error: e.to_string() }`), and return its
availability; an unregistered provider yields `false`. -/
def LlmManager.perform_health_check (st : LlmManager) (provider_id : ProviderId) :
    Bool × LlmManager :=
  match st.registry.get provider_id with
  | some provider =>
      match provider.health_check with
      | .ok status =>
          (status.is_available,
           { st with health_status :=
               assocInsert provider_id (status, true) st.health_status })
      | .error e =>
          let cached := (HealthStatus.Unhealthy e.display, true)
          (false,
           { st with health_status :=
               assocInsert provider_id cached st.health_status })
  | none => (false, st)

/-- manager.rs `LlmManager::is_provider_healthy`: use the cached verdict if
it is fresh, otherwise perform a fresh health check. -/
def LlmManager.is_provider_healthy (st : LlmManager) (provider_id : ProviderId) :
    Bool × LlmManager :=
  match assocGet st.health_status provider_id with
  | some (status, true) => (status.is_available, st)
  | _ => st.perform_health_check provider_id

/-- manager.rs `auto_select_provider`, step 3: walk all enabled providers
in registration order; select the first healthy one; otherwise fail with
`NoProviderAvailable`. -/
def selectAnyEnabled (st : LlmManager) :
    List LlmProviderObj → Except CodevError ProviderId × LlmManager
  | [] => (.error (AiError.toCodevError .NoProviderAvailable), st)
  | provider :: rest =>
      let provider_id := provider.id
      let (healthy, st') := st.is_provider_healthy provider_id
      if healthy then
        (.ok provider_id, { st' with current_provider := some provider_id })
      else selectAnyEnabled st' rest

/-- manager.rs `auto_select_provider`, step 2: walk the fallback chain;
select the first entry that is registered and healthy.  Falls through to
`selectAnyEnabled` (step 3, applied to `enabled`) on exhaustion. -/
def selectFromChain (st : LlmManager) (enabled : List LlmProviderObj) :
    List ProviderId → Except CodevError ProviderId × LlmManager
  | [] => selectAnyEnabled st enabled
  | provider_id :: rest =>
      match st.registry.get provider_id with
      | some _ =>
          let (healthy, st') := st.is_provider_healthy provider_id
          if healthy then
            (.ok provider_id, { st' with current_provider := some provider_id })
          else selectFromChain st' enabled rest
      | none => selectFromChain st enabled rest

/-- manager.rs `LlmManager::auto_select_provider`: (1) prefer Ollama when
the environment looks local and Ollama is registered and healthy; (2) walk
the fallback chain; (3) walk all enabled providers in registration order;
(4) fail with `NoProviderAvailable`. -/
def LlmManager.auto_select_provider (st : LlmManager) :
    Except CodevError ProviderId × LlmManager :=
  let enabled := st.registry.enabled_providers
  if st.environment = .Development || st.is_local_environment then
    match st.registry.get .Ollama with
    | some _ =>
        let (healthy, st') := st.is_provider_healthy .Ollama
        if healthy then
          (.ok .Ollama, { st' with current_provider := some ProviderId.Ollama })
        else selectFromChain st' enabled st'.fallback_chain
    | none => selectFromChain st enabled st.fallback_chain
  else selectFromChain st enabled st.fallback_chain

/-- manager.rs `LlmManager::switch_provider`: reject a disabled or
unregistered provider; otherwise health-check the target — Healthy and
Degraded install it as current, Unhealthy is rejected with
`ProviderNotAvailable(provider_id)` (a failing check propagates through
the `?` operator). -/
def LlmManager.switch_provider (st : LlmManager) (provider_id : ProviderId) :
    Except CodevError Unit × LlmManager :=
  if st.registry.is_enabled provider_id then
    match st.registry.get provider_id with
    | some provider =>
        match provider.health_check with
        | .error e => (.error e, st)
        | .ok .Healthy =>
            (.ok (), { st with current_provider := some provider_id })
        | .ok (.Degraded _) =>
            (.ok (), { st with current_provider := some provider_id })
        | .ok (.Unhealthy _) =>
            (.error (AiError.toCodevError (.ProviderNotAvailable provider_id)), st)
    | none =>
        (.error (AiError.toCodevError (.ProviderNotAvailable provider_id)), st)
  else
    (.error (AiError.toCodevError (.ProviderNotAvailable provider_id)), st)

/-- manager.rs `LlmManager::get_available_provider`: reuse the current
provider if it is healthy, otherwise re-run `auto_select_provider` (the
source clones the manager for this; the clone shares the registry, the
current-provider cell and the health cache through `Arc`s). -/
def LlmManager.get_available_provider (st : LlmManager) :
    Except CodevError ProviderId × LlmManager :=
  match st.current_provider with
  | some current =>
      let (healthy, st') := st.is_provider_healthy current
      if healthy then (.ok current, st') else st'.auto_select_provider
  | none => st.auto_select_provider

/-- manager.rs `LlmManager::try_fallback_generation`, the loop over the
fallback chain: skip the failed provider, try each registered healthy
candidate's `generate` in turn, install the first success as current.  The
third component counts the provider `generate` calls performed. -/
def tryFallbackFrom (st : LlmManager) (prompt : String)
    (options : GenerationOptions) (failed_provider : ProviderId) :
    List ProviderId → Except CodevError String × LlmManager × Nat
  | [] => (.error (AiError.toCodevError .NoProviderAvailable), st, 0)
  | provider_id :: rest =>
      if provider_id = failed_provider then
        tryFallbackFrom st prompt options failed_provider rest
      else
        match st.registry.get provider_id with
        | some provider =>
            let (healthy, st') := st.is_provider_healthy provider_id
            if healthy then
              match provider.generate prompt options with
              | .ok response =>
                  (.ok response,
                   { st' with current_provider := some provider_id }, 1)
              | .error _ =>
                  let (r, st'', n) :=
                    tryFallbackFrom st' prompt options failed_provider rest
                  (r, st'', n + 1)
            else tryFallbackFrom st' prompt options failed_provider rest
        | none => tryFallbackFrom st prompt options failed_provider rest

/-- manager.rs `LlmManager::try_fallback_generation`. -/
def LlmManager.try_fallback_generation (st : LlmManager) (prompt : String)
    (options : GenerationOptions) (failed_provider : ProviderId) :
    Except CodevError String × LlmManager × Nat :=
  tryFallbackFrom st prompt options failed_provider st.fallback_chain

/-- manager.rs `LlmManager::generate`: resolve a provider, call its
`generate`; on failure fall back through the chain.  The third component
counts provider `generate` calls (health checks are not counted). -/
def LlmManager.generate (st : LlmManager) (prompt : String)
    (options : GenerationOptions) :
    Except CodevError String × LlmManager × Nat :=
  match st.get_available_provider with
  | (.error e, st') => (.error e, st', 0)
  | (.ok provider_id, st') =>
      match st'.registry.get provider_id with
      | some provider =>
          match provider.generate prompt options with
          | .ok response => (.ok response, st', 1)
          | .error _ =>
              let (r, st'', n) :=
                st'.try_fallback_generation prompt options provider_id
              (r, st'', n + 1)
      | none =>
          (.error (AiError.toCodevError (.ProviderNotAvailable provider_id)),
           st', 0)

/-- engine.rs `AiEngine::process_request`: serve from the request cache
when the fingerprint hits; otherwise generate through the manager, build
the `AiResponse` (provider = the manager's current provider afterwards)
and cache it.  Returns the result, the updated manager and cache, and the
number of provider `generate` calls performed. -/
def process_request (mgr : LlmManager) (cache : RequestCache)
    (request : AiRequest) :
    Except CodevError AiResponse × LlmManager × RequestCache × Nat :=
  match cache.get (cache_key request) with
  | some cached_response => (.ok cached_response, mgr, cache, 0)
  | none =>
      match mgr.generate request.prompt request.options with
      | (.error e, mgr', n) => (.error e, mgr', cache, n)
      | (.ok response_content, mgr', n) =>
          match mgr'.current_provider with
          | none => (.error (CodevError.Internal "No current provider"), mgr', cache, n)
          | some current_provider =>
              let response : AiResponse :=
                { content := response_content
                  provider := current_provider
                  model := "unknown"
                  usage :=
                    { prompt_tokens := estimate_tokens request.prompt
                      completion_tokens := estimate_tokens response_content
                      total_tokens := estimate_tokens request.prompt
                        + estimate_tokens response_content
                      estimated_cost := none } }
              (.ok response, mgr',
               cache.insert (cache_key request) response, n)

/-! ## codev-core/src/ai/providers/ollama.rs -/

/-- An HTTP response from the Ollama daemon as `generate` consumes it:
its status and the outcome of parsing its body as an `OllamaResponse`
(only the `response` text field is used afterwards). -/
structure OllamaHttpResponse where
  status_success : Bool
  status : Nat
  response_text : Except String String
deriving DecidableEq, Repr

/-- ollama.rs `OllamaProvider::request_with_retries`, iterating the
attempt numbers `1..=max_retries` with `last_error` threaded through.
Each failed attempt that is not the last sleeps `1000 * attempt` ms
before the next one.  Returns the result (`none` models the
`last_error.unwrap()` panic that `max_retries == 0` would hit), the list
of back-off delays slept (in ms, in order), and the number of attempts
performed. -/
def retryGo {α : Type} (operation : Nat → Except CodevError α)
    (max_retries : Nat) :
    List Nat → Option CodevError → Option (Except CodevError α) × List Nat × Nat
  | [], last_error => (last_error.map .error, [], 0)
  | attempt :: rest, _ =>
      match operation attempt with
      | .ok result => (some (.ok result), [], 1)
      | .error e =>
          let next := retryGo operation max_retries rest (some e)
          if attempt < max_retries then
            (next.1, 1000 * attempt :: next.2.1, next.2.2 + 1)
          else (next.1, next.2.1, next.2.2 + 1)

/-- ollama.rs `OllamaProvider::request_with_retries`. -/
def request_with_retries {α : Type} (max_retries : Nat)
    (operation : Nat → Except CodevError α) :
    Option (Except CodevError α) × List Nat × Nat :=
  retryGo operation max_retries ((List.range max_retries).map (· + 1)) none

/-- ollama.rs `OllamaProvider::generate`: send the request through
`request_with_retries` (the `send` oracle gives each attempt's outcome),
then fail on a non-success status with `ServerError`, fail on a body
parse error with `StreamingError`, and otherwise return the response
text.  Second and third components: back-off delays slept and attempts
performed. -/
def ollamaGenerate (max_retries : Nat)
    (send : Nat → Except CodevError OllamaHttpResponse) :
    Option (Except CodevError String) × List Nat × Nat :=
  match request_with_retries max_retries send with
  | (none, delays, n) => (none, delays, n)
  | (some (.error e), delays, n) => (some (.error e), delays, n)
  | (some (.ok response), delays, n) =>
      if ¬ response.status_success then
        (some (.error (AiError.toCodevError
          (.ServerError .Ollama response.status "Generate request failed"))),
         delays, n)
      else
        match response.response_text with
        | .error e =>
            (some (.error (AiError.toCodevError
              (.StreamingError ("Failed to parse streaming response: " ++ e)))),
             delays, n)
        | .ok text => (some (.ok text), delays, n)

/-! ## Derived predicates and concrete fixtures used by the theorems -/

/-- The pure value of `is_provider_healthy st provider_id`: the fresh
cached verdict's availability if one exists, otherwise the availability
the provider's `health_check` oracle would report (`false` for an
unregistered provider or a failing check). -/
def healthyPure (st : LlmManager) (provider_id : ProviderId) : Bool :=
  match assocGet st.health_status provider_id with
  | some (status, true) => status.is_available
  | _ =>
      match st.registry.get provider_id with
      | some provider =>
          match provider.health_check with
          | .ok status => status.is_available
          | .error _ => false
      | none => false

/-- The provider's `health_check` yields an Unhealthy verdict or the check
itself fails (premise of the fallback-exhaustion property). -/
def checkUnavailable (provider : LlmProviderObj) : Bool :=
  match provider.health_check with
  | .ok status => !status.is_available
  | .error _ => true

/-- States that agree on everything `auto_select_provider` reads: they may
differ only in the mutable `current_provider` cell and the unread
`auto_detect` flag. -/
def SelectionEquiv (st' st : LlmManager) : Prop :=
  ∃ c a, st' = { st with current_provider := c, auto_detect := a }

/-- A request whose only varying fingerprint-relevant field is the prompt
(all remaining fields are fixed defaults). -/
def mkPromptReq (prompt : String) : AiRequest where
  prompt := prompt
  task_type := .Chat
  options := GenerationOptions.default
  priority := .Normal

/-- Fixture: an enabled provider configuration. -/
def enabledConfig : ProviderConfig where
  enabled := true
  model := "codellama:7b"
  endpoint := none
  max_tokens := none
  temperature := none
  timeout_seconds := none
  max_retries := none

/-- Fixture: a provider whose probes report Healthy and whose generation
echoes the prompt. -/
def mkHealthyProvider (id : ProviderId) : LlmProviderObj where
  id := id
  name := id.display
  is_available := true
  health_check := .ok .Healthy
  generate := fun prompt _ => .ok ("echo: " ++ prompt)

/-- Fixture: a provider whose probes report Unhealthy and whose generation
fails. -/
def mkUnhealthyProvider (id : ProviderId) : LlmProviderObj where
  id := id
  name := id.display
  is_available := false
  health_check := .ok (.Unhealthy "service not accessible")
  generate := fun _ _ => .error (.Network "connection refused")

/-- Fixture: a provider whose probes report Degraded and whose generation
echoes the prompt. -/
def mkDegradedProvider (id : ProviderId) : LlmProviderObj where
  id := id
  name := id.display
  is_available := true
  health_check := .ok (.Degraded "model missing, pull failed")
  generate := fun prompt _ => .ok ("echo: " ++ prompt)

/-- Fixture: a manager over the given registry in a non-local production
environment, with an empty health cache. -/
def mkManager (registry : ProviderRegistry) (chain : List ProviderId)
    (current : Option ProviderId) : LlmManager where
  registry := registry
  current_provider := current
  fallback_chain := chain
  environment := .Production
  auto_detect := false
  codev_local_env_var := false
  health_status := []

/-- Fixture: a registry with an unhealthy Claude and a healthy Mistral,
both enabled, in that registration order. -/
def regTwo : ProviderRegistry where
  providers :=
    [(.Claude, mkUnhealthyProvider .Claude), (.Mistral, mkHealthyProvider .Mistral)]
  configs := [(.Claude, enabledConfig), (.Mistral, enabledConfig)]

/-- Fixture: a registry with a single enabled unhealthy Claude. -/
def regUnhealthy : ProviderRegistry where
  providers := [(.Claude, mkUnhealthyProvider .Claude)]
  configs := [(.Claude, enabledConfig)]

/-- Fixture: a registry with a healthy Ollama, a degraded OpenAI and an
unhealthy Claude, all enabled. -/
def regMixed : ProviderRegistry where
  providers :=
    [(.Ollama, mkHealthyProvider .Ollama), (.OpenAI, mkDegradedProvider .OpenAI),
     (.Claude, mkUnhealthyProvider .Claude)]
  configs :=
    [(.Ollama, enabledConfig), (.OpenAI, enabledConfig), (.Claude, enabledConfig)]

/-- Fixture: the registry obtained by registering a healthy Claude and
then a healthy Mistral, both enabled; the model's representative
iteration order lists Claude first. -/
def regTwoHealthy : ProviderRegistry :=
  (ProviderRegistry.new.register (mkHealthyProvider .Claude)
      enabledConfig).register
    (mkHealthyProvider .Mistral) enabledConfig

/-- Fixture: the same map contents as `regTwoHealthy` under the other
iteration order (Mistral first) — equally legitimate for a `std`
`HashMap`, whose iteration order is arbitrary per instance. -/
def regTwoHealthyAlt : ProviderRegistry where
  providers :=
    [(.Mistral, mkHealthyProvider .Mistral), (.Claude, mkHealthyProvider .Claude)]
  configs := [(.Mistral, enabledConfig), (.Claude, enabledConfig)]

/-- Fixture: a concrete response for cache scenarios. -/
def mkResp (content : String) : AiResponse where
  content := content
  provider := .Ollama
  model := "unknown"
  usage :=
    { prompt_tokens := 1
      completion_tokens := estimate_tokens content
      total_tokens := 1 + estimate_tokens content
      estimated_cost := none }

/-! ## Helper lemmas -/

theorem tokenSum_nil : tokenSum [] = 0 := rfl

theorem tokenSum_cons_ok (t : List Char) (l : List Chunk) :
    tokenSum (.ok t :: l) = estimate_token_count t + tokenSum l := rfl

theorem tokenSum_cons_error (e : CodevError) (l : List Chunk) :
    tokenSum (.error e :: l) = tokenSum l := rfl

theorem take_tokens_go_nil (max_tokens seen : Nat) :
    take_tokens_go max_tokens seen [] = ([], 0) := rfl

theorem take_tokens_go_error (max_tokens seen : Nat) (e : CodevError)
    (rest : List Chunk) :
    take_tokens_go max_tokens seen (.error e :: rest)
      = (.error e :: (take_tokens_go max_tokens seen rest).1,
         (take_tokens_go max_tokens seen rest).2 + 1) := rfl

theorem take_tokens_go_ok (max_tokens seen : Nat) (t : List Char)
    (rest : List Chunk) :
    take_tokens_go max_tokens seen (.ok t :: rest)
      = if seen + estimate_token_count t ≤ max_tokens then
          (.ok t :: (take_tokens_go max_tokens
              (seen + estimate_token_count t) rest).1,
           (take_tokens_go max_tokens (seen + estimate_token_count t) rest).2 + 1)
        else if seen + estimate_token_count t - estimate_token_count t
            < max_tokens then
          (.ok (t.take (Nat.min ((max_tokens
                - (seen + estimate_token_count t - estimate_token_count t)) * 4)
              (utf8Len t)))
             :: (take_tokens_go max_tokens (seen + estimate_token_count t) rest).1,
           (take_tokens_go max_tokens (seen + estimate_token_count t) rest).2 + 1)
        else ([], 1) := rfl

theorem utf8Len_ascii : ∀ {t : List Char},
    (∀ ch ∈ t, ch.utf8Size = 1) → utf8Len t = t.length := by
  intro t
  induction t with
  | nil => intro _; rfl
  | cons c t ih =>
      intro h
      have hc : c.utf8Size = 1 := h c (List.mem_cons_self c t)
      have ih' : utf8Len t = t.length :=
        ih (fun ch hch => h ch (List.mem_cons_of_mem c hch))
      simp only [utf8Len, List.map_cons, List.sum_cons, List.length_cons] at *
      omega

theorem utf8Len_take_ascii {t : List Char} (n : Nat)
    (h : ∀ ch ∈ t, ch.utf8Size = 1) :
    utf8Len (t.take n) = Nat.min n t.length := by
  have hsub : ∀ ch ∈ t.take n, ch.utf8Size = 1 :=
    fun ch hch => h ch (List.mem_of_mem_take hch)
  rw [utf8Len_ascii hsub, List.length_take]

theorem one_le_estimate (t : List Char) : 1 ≤ estimate_token_count t := by
  unfold estimate_token_count
  exact Nat.le_max_right _ _

/-- The clipped fragment of the truncation stage carries at most `k`
approximate tokens when its text is ASCII and `1 ≤ k`. -/
theorem estimate_take_le {t : List Char}
    (htascii : ∀ ch ∈ t, ch.utf8Size = 1) {k : Nat} (hk : 1 ≤ k) :
    estimate_token_count (t.take (Nat.min (k * 4) (utf8Len t))) ≤ k := by
  have hbytes : utf8Len (t.take (Nat.min (k * 4) (utf8Len t))) ≤ k * 4 := by
    rw [utf8Len_take_ascii _ htascii]
    exact le_trans (Nat.min_le_left _ _) (Nat.min_le_left _ _)
  unfold estimate_token_count
  refine Nat.max_le.mpr ⟨?_, hk⟩
  omega

/-- Invariant of the `take_tokens` scan over ASCII fragments: starting
below the budget, the emitted fragments carry at most the remaining
budget; starting above it, only error fragments (of zero token weight)
are emitted. -/
theorem take_tokens_go_sum (max_tokens : Nat) :
    ∀ (l : List Chunk), asciiChunks l →
    ∀ seen, (seen ≤ max_tokens →
        tokenSum (take_tokens_go max_tokens seen l).1 ≤ max_tokens - seen)
      ∧ (max_tokens < seen →
        tokenSum (take_tokens_go max_tokens seen l).1 = 0) := by
  intro l
  induction l with
  | nil =>
      intro _ seen
      exact ⟨fun _ => by simp [take_tokens_go_nil, tokenSum_nil],
             fun _ => by simp [take_tokens_go_nil, tokenSum_nil]⟩
  | cons c rest ih =>
      intro hl seen
      have hrest : asciiChunks rest :=
        fun x hx => hl x (List.mem_cons_of_mem c hx)
      have ihr := ih hrest
      match c with
      | .error e =>
          refine ⟨fun h => ?_, fun h => ?_⟩
          · rw [take_tokens_go_error, tokenSum_cons_error]
            exact (ihr seen).1 h
          · rw [take_tokens_go_error, tokenSum_cons_error]
            exact (ihr seen).2 h
      | .ok t =>
          have htascii : ∀ ch ∈ t, ch.utf8Size = 1 := by
            have := hl (.ok t) (List.mem_cons_self _ _)
            simpa [asciiChunk, List.all_eq_true, beq_iff_eq] using this
          have hest1 : 1 ≤ estimate_token_count t := one_le_estimate t
          rw [take_tokens_go_ok]
          by_cases h1 : seen + estimate_token_count t ≤ max_tokens
          · rw [if_pos h1]
            refine ⟨fun h => ?_, fun h => ?_⟩
            · have hrec := (ihr (seen + estimate_token_count t)).1 h1
              rw [tokenSum_cons_ok]
              omega
            · exact absurd h1 (by omega)
          · rw [if_neg h1]
            by_cases h2 : seen + estimate_token_count t - estimate_token_count t
                < max_tokens
            · rw [if_pos h2]
              refine ⟨fun h => ?_, fun h => ?_⟩
              · have hz := (ihr (seen + estimate_token_count t)).2 (by omega)
                rw [tokenSum_cons_ok, hz, Nat.add_zero]
                have hsc : seen + estimate_token_count t - estimate_token_count t
                    = seen := by omega
                rw [hsc]
                exact estimate_take_le htascii (by omega)
              · exact absurd h (by omega)
            · rw [if_neg h2]
              exact ⟨fun h => by simp [tokenSum_nil],
                     fun h => by simp [tokenSum_nil]⟩

/-! ## Claim theorems -/

/-- C9: for every health verdict `v`, `is_available v` is true exactly when
`v` is not `Unhealthy` (in particular it is true for `Healthy` and for
every `Degraded` verdict), and `is_healthy v` is true exactly when `v` is
`Healthy`. -/
theorem health_status_predicates :
    (∀ v : HealthStatus,
      (v.is_available = true ↔ ¬ ∃ e, v = HealthStatus.Unhealthy e)
      ∧ (v.is_healthy = true ↔ v = HealthStatus.Healthy))
    ∧ HealthStatus.is_available .Healthy = true
    ∧ (∀ reason, HealthStatus.is_available (.Degraded reason) = true) := by
  refine ⟨fun v => ?_, rfl, fun _ => rfl⟩
  cases v <;> simp [HealthStatus.is_available, HealthStatus.is_healthy]

/-- C10: when the upstream of the buffering stage yields an error fragment,
the stage emits exactly that error and completes — the text accumulated in
the buffer is discarded (no `Ok` fragment carries it) and the rest of the
upstream is never pulled — whereas plain upstream exhaustion flushes a
non-empty buffer as a final text fragment. -/
theorem token_stream_error_discards_buffer :
    ∀ (buffer_size : Nat) (buffer : List Char) (e : CodevError)
      (rest : List Chunk),
      tokenStreamRun buffer_size buffer (.error e :: rest) = [.error e]
      ∧ (buffer ≠ [] → tokenStreamRun buffer_size buffer [] = [.ok buffer]) := by
  intro buffer_size buffer e rest
  constructor
  · rfl
  · intro h
    simp [tokenStreamRun, h]

theorem token_stream_error_discards_buffer_witness :
    tokenStreamRun 64 ['h', 'i'] [.error (.Network "boom"), .ok ['x']]
        = [.error (.Network "boom")]
    ∧ tokenStreamRun 64 ['h', 'i'] [] = [.ok ['h', 'i']] :=
  ⟨(token_stream_error_discards_buffer 64 ['h', 'i'] (.Network "boom")
      [.ok ['x']]).1,
   (token_stream_error_discards_buffer 64 ['h', 'i'] (.Network "boom")
      [.ok ['x']]).2 (by simp)⟩

/-- C5 counterexample: the claim fails on the code in two ways.  First, the
clip is a `chars().take(..)` character trim while the token estimate is
byte-based, so on multibyte text the emitted fragments can exceed the
budget: with budget 2 and one fragment of twelve two-byte chars the output
carries 4 approximate tokens.  Second, the `scan`-based stage does not stop
pulling once truncation fires: with budget 1, a fragment of 8 ASCII chars
is clipped (truncation fires on the first fragment) and yet a second
upstream fragment is still consumed before the sequence ends. -/
theorem take_tokens_counterexample :
    ¬ tokenSum (take_tokens 2 [.ok (List.replicate 12 'é')]).1 ≤ 2
    ∧ (take_tokens 1 [.ok (List.replicate 8 'a'),
        .ok (List.replicate 4 'b')]).2 = 2 := by
  constructor
  · decide
  · decide

/-- C5 (amended): for fragment sequences of single-byte (ASCII) chars, the
truncation stage emits fragments whose cumulative approximate token count
(`max(byte_length/4, 1)` per fragment) is at most the budget `max_tokens`,
the final text fragment being clipped by a character trim proportional to
the overshoot; the output sequence terminates, but the stage may still
consume upstream fragments after truncation fires (error fragments pass
through, and one further text fragment is consumed before the scan stops). -/
theorem take_tokens_within_budget_ascii (max_tokens : Nat) (l : List Chunk)
    (h : asciiChunks l) :
    tokenSum (take_tokens max_tokens l).1 ≤ max_tokens := by
  have := (take_tokens_go_sum max_tokens l h 0).1 (Nat.zero_le _)
  simpa [take_tokens] using this

theorem take_tokens_within_budget_ascii_witness :
    tokenSum (take_tokens 2 [.ok (List.replicate 12 'a'),
        .ok (List.replicate 4 'b')]).1 ≤ 2 :=
  take_tokens_within_budget_ascii 2 _ (by decide)

theorem assocGet_insert_self {α β : Type} [DecidableEq α] (k : α) (v : β) :
    ∀ l : List (α × β), assocGet (assocInsert k v l) k = some v := by
  intro l
  induction l with
  | nil => simp [assocInsert, assocGet]
  | cons p t ih =>
      by_cases h : p.1 = k
      · simp [assocInsert, assocGet, h]
      · simp only [assocInsert]
        rw [if_neg h]
        simp only [assocGet]
        rw [if_neg h]
        exact ih

theorem assocGet_insert_ne {α β : Type} [DecidableEq α] (k q : α) (v : β)
    (hne : k ≠ q) :
    ∀ l : List (α × β), assocGet (assocInsert k v l) q = assocGet l q := by
  intro l
  induction l with
  | nil => simp [assocInsert, assocGet, hne]
  | cons p t ih =>
      by_cases h : p.1 = k
      · have hpq : ¬ p.1 = q := by rw [h]; exact hne
        simp only [assocInsert]
        rw [if_pos h]
        simp only [assocGet]
        rw [if_neg hne, if_neg hpq]
      · simp only [assocInsert]
        rw [if_neg h]
        simp only [assocGet]
        by_cases hq : p.1 = q
        · rw [if_pos hq, if_pos hq]
        · rw [if_neg hq, if_neg hq]
          exact ih

theorem assocInsert_of_fresh {α β : Type} [DecidableEq α] (k : α) (v : β) :
    ∀ l : List (α × β), assocGet l k = none → assocInsert k v l = l ++ [(k, v)] := by
  intro l
  induction l with
  | nil => intro _; rfl
  | cons p t ih =>
      intro h
      simp only [assocGet] at h
      by_cases hp : p.1 = k
      · rw [if_pos hp] at h
        exact absurd h (by simp)
      · rw [if_neg hp] at h
        simp only [assocInsert]
        rw [if_neg hp, ih h]
        simp

theorem assocGet_some_mem {α β : Type} [DecidableEq α] {k : α} {v : β} :
    ∀ {l : List (α × β)}, assocGet l k = some v → (k, v) ∈ l := by
  intro l
  induction l with
  | nil => intro h; simp [assocGet] at h
  | cons p t ih =>
      intro h
      simp only [assocGet] at h
      by_cases hp : p.1 = k
      · rw [if_pos hp] at h
        have : p = (k, v) := by
          cases p
          simp_all
        simp [this]
      · rw [if_neg hp] at h
        exact List.mem_cons_of_mem _ (ih h)

/-- C7: when the request cache holds exactly `max_size` entries (with a
positive capacity — the only constructor sets `max_size = 1000`) and a
response is inserted under a key not yet present, exactly one existing
entry — the first in iteration order — is evicted before the insert, and
the map size after the insert is again exactly `max_size`. -/
theorem request_cache_insert_at_capacity (c : RequestCache) (key : String)
    (response : AiResponse)
    (hfull : c.cache.length = c.max_size) (hpos : 0 < c.max_size)
    (hfresh : assocGet c.cache key = none) :
    (c.insert key response).cache = c.cache.tail ++ [(key, response)]
    ∧ (c.insert key response).cache.length = c.max_size := by
  match hc : c.cache with
  | [] =>
      rw [hc] at hfull
      simp only [List.length_nil] at hfull
      omega
  | (k0, v0) :: t =>
      rw [hc] at hfull hfresh
      have hcap : c.max_size ≤ c.cache.length := by rw [hc]; omega
      have hfresh' : assocGet t key = none := by
        simp only [assocGet] at hfresh
        by_cases h0 : k0 = key
        · rw [if_pos h0] at hfresh; exact absurd hfresh (by simp)
        · rwa [if_neg h0] at hfresh
      have hstep : (c.insert key response).cache = t ++ [(key, response)] := by
        unfold RequestCache.insert
        rw [if_pos hcap, hc]
        simp only [List.head?]
        have herase : assocErase k0 ((k0, v0) :: t) = t := by
          simp [assocErase]
        rw [herase, assocInsert_of_fresh key response t hfresh']
      refine ⟨?_, ?_⟩
      · rw [hstep]; rfl
      · rw [hstep]
        simp only [List.length_append, List.length_cons, List.length_nil] at *
        omega

theorem request_cache_insert_at_capacity_witness :
    (RequestCache.insert ⟨[("cache_a", mkResp "ra"), ("cache_b", mkResp "rb")], 2⟩
        "cache_c" (mkResp "rc")).cache
      = [("cache_b", mkResp "rb"), ("cache_c", mkResp "rc")]
    ∧ (RequestCache.insert ⟨[("cache_a", mkResp "ra"), ("cache_b", mkResp "rb")], 2⟩
        "cache_c" (mkResp "rc")).cache.length = 2 :=
  request_cache_insert_at_capacity
    ⟨[("cache_a", mkResp "ra"), ("cache_b", mkResp "rb")], 2⟩
    "cache_c" (mkResp "rc") rfl (by decide) (by decide)

/-- When every attempt in the list fails, the retry loop surfaces the error
of the last attempt (or the threaded `last_error` if no attempt runs),
sleeps `1000 * attempt` ms after each non-final failed attempt, and
performs every attempt. -/
theorem retryGo_all_fail {α : Type} (operation : Nat → Except CodevError α)
    (max_retries : Nat) (errs : Nat → CodevError) :
    ∀ (l : List Nat), (∀ k ∈ l, operation k = .error (errs k)) →
    ∀ last0 : Option CodevError,
      retryGo operation max_retries l last0
        = (l.getLast?.elim (last0.map Except.error)
             (fun k => some (Except.error (errs k))),
           (l.filter (fun k => k < max_retries)).map (fun k => 1000 * k),
           l.length) := by
  intro l
  induction l with
  | nil => intro _ last0; rfl
  | cons a rest ih =>
      intro hfail last0
      have ha : operation a = .error (errs a) :=
        hfail a (List.mem_cons_self a rest)
      have hrest := ih (fun k hk => hfail k (List.mem_cons_of_mem a hk))
        (some (errs a))
      simp only [retryGo, ha]
      rw [hrest]
      cases rest with
      | nil =>
          by_cases hlt : a < max_retries <;>
            simp [hlt, List.filter_cons]
      | cons b rest' =>
          have hne : (b :: rest').getLast?.isSome = true := by
            cases h : (b :: rest').getLast? with
            | none =>
                exact absurd h (by simp [List.getLast?_eq_none_iff])
            | some k => rfl
          obtain ⟨k, hk⟩ := Option.isSome_iff_exists.mp hne
          by_cases hlt : a < max_retries <;>
            simp [hlt, List.filter_cons, List.getLast?_cons_cons, hk]

/-- The attempt numbers `1..=n` end with `n`. -/
theorem attempts_getLast (n : Nat) (h : 1 ≤ n) :
    ((List.range n).map (· + 1)).getLast? = some n := by
  obtain ⟨m, rfl⟩ : ∃ m, n = m + 1 := ⟨n - 1, by omega⟩
  rw [List.range_succ, List.map_append]
  simp [List.getLast?_concat]

/-- Among the attempts `1..=n`, those followed by a back-off sleep are
`1..=n-1`. -/
theorem attempts_filter (n : Nat) :
    ((List.range n).map (· + 1)).filter (fun k => k < n)
      = (List.range (n - 1)).map (· + 1) := by
  cases n with
  | zero => rfl
  | succ m =>
      rw [List.range_succ, List.map_append, List.filter_append]
      have h1 : ((List.range m).map (· + 1)).filter (fun k => k < m + 1)
          = (List.range m).map (· + 1) := by
        apply List.filter_eq_self.mpr
        intro x hx
        simp only [List.mem_map, List.mem_range] at hx
        obtain ⟨i, hi, rfl⟩ := hx
        simp
        omega
      have h2 : ([m + 1].filter (fun k => k < m + 1)) = ([] : List Nat) := by
        simp
      simp only [List.map_cons, List.map_nil]
      rw [h1, h2, List.append_nil]
      simp

/-- C8: when every send attempt fails, the adapter's one-shot `generate`
performs exactly `max_retries` attempts (`1 ≤ max_retries`), sleeping an
increasing linear back-off of `k * 1000` ms after each attempt `k` except
the last, and surfaces the error of the last attempt. -/
theorem ollama_generate_retry_policy (max_retries : Nat)
    (send : Nat → Except CodevError OllamaHttpResponse)
    (errs : Nat → CodevError)
    (hpos : 1 ≤ max_retries)
    (hfail : ∀ k, 1 ≤ k → k ≤ max_retries → send k = .error (errs k)) :
    ollamaGenerate max_retries send
      = (some (.error (errs max_retries)),
         (List.range (max_retries - 1)).map (fun k => 1000 * (k + 1)),
         max_retries) := by
  have hall : ∀ k ∈ (List.range max_retries).map (· + 1),
      send k = .error (errs k) := by
    intro k hk
    simp only [List.mem_map, List.mem_range] at hk
    obtain ⟨i, hi, rfl⟩ := hk
    exact hfail (i + 1) (by omega) (by omega)
  have hr := retryGo_all_fail send max_retries errs _ hall none
  unfold ollamaGenerate request_with_retries
  rw [hr, attempts_getLast _ hpos, attempts_filter]
  simp [List.map_map, Function.comp_def, Nat.mul_comm]

theorem ollama_generate_retry_policy_witness :
    ollamaGenerate 3 (fun _ => .error (.Network "connection refused"))
      = (some (.error (.Network "connection refused")), [1000, 2000], 3) := by
  rw [ollama_generate_retry_policy 3
    (fun _ => .error (.Network "connection refused"))
    (fun _ => .Network "connection refused")
    (by decide) (fun _ _ _ => rfl)]
  rfl

/-- C6: `switch_to` on a registered, enabled provider performs a health
check on the target; a Healthy or a Degraded verdict makes the call
succeed and installs the target as the current provider, while an
Unhealthy verdict makes the call fail with an error naming that provider
and leaves the current selection unchanged. -/
theorem switch_provider_health_cases (st : LlmManager)
    (provider_id : ProviderId) (provider : LlmProviderObj)
    (hreg : st.registry.get provider_id = some provider)
    (hen : st.registry.is_enabled provider_id = true) :
    (provider.health_check = .ok .Healthy →
      st.switch_provider provider_id
        = (.ok (), { st with current_provider := some provider_id }))
    ∧ (∀ reason, provider.health_check = .ok (.Degraded reason) →
      st.switch_provider provider_id
        = (.ok (), { st with current_provider := some provider_id }))
    ∧ (∀ error, provider.health_check = .ok (.Unhealthy error) →
      st.switch_provider provider_id
        = (.error (CodevError.LlmProvider provider_id "Provider not available"),
           st)) := by
  refine ⟨fun hh => ?_, fun reason hh => ?_, fun error hh => ?_⟩ <;>
    simp [LlmManager.switch_provider, hen, hreg, hh, AiError.toCodevError]

theorem switch_provider_health_cases_witness :
    (mkManager regMixed [] none).switch_provider .Ollama
      = (.ok (), { mkManager regMixed [] none with
          current_provider := some ProviderId.Ollama })
    ∧ (mkManager regMixed [] none).switch_provider .OpenAI
      = (.ok (), { mkManager regMixed [] none with
          current_provider := some ProviderId.OpenAI })
    ∧ (mkManager regMixed [] none).switch_provider .Claude
      = (.error (CodevError.LlmProvider .Claude "Provider not available"),
         mkManager regMixed [] none) :=
  ⟨(switch_provider_health_cases (mkManager regMixed [] none) .Ollama
      (mkHealthyProvider .Ollama) rfl rfl).1 rfl,
   (switch_provider_health_cases (mkManager regMixed [] none) .OpenAI
      (mkDegradedProvider .OpenAI) rfl rfl).2.1 _ rfl,
   (switch_provider_health_cases (mkManager regMixed [] none) .Claude
      (mkUnhealthyProvider .Claude) rfl rfl).2.2 _ rfl⟩

theorem wrap64_lt (n : Nat) : wrap64 n < 2 ^ 64 :=
  Nat.mod_lt _ (by norm_num)

theorem rotl64_lt {x : Nat} (r : Nat) (hx : x < 2 ^ 64) :
    rotl64 x r < 2 ^ 64 := by
  unfold rotl64
  refine Nat.or_lt_two_pow (wrap64_lt _) ?_
  calc x >>> (64 - r) ≤ x := by
        rw [Nat.shiftRight_eq_div_pow]
        exact Nat.div_le_self _ _
    _ < 2 ^ 64 := hx

theorem sipRound_bounded {s : SipState}
    (h1 : s.v1 < 2 ^ 64) (h3 : s.v3 < 2 ^ 64) :
    (sipRound s).v0 < 2 ^ 64 ∧ (sipRound s).v1 < 2 ^ 64
    ∧ (sipRound s).v2 < 2 ^ 64 ∧ (sipRound s).v3 < 2 ^ 64 := by
  unfold sipRound
  refine ⟨wrap64_lt _, ?_, ?_, ?_⟩
  · exact Nat.xor_lt_two_pow
      (rotl64_lt 17 (Nat.xor_lt_two_pow (rotl64_lt 13 h1) (wrap64_lt _)))
      (wrap64_lt _)
  · exact rotl64_lt 32 (wrap64_lt _)
  · exact Nat.xor_lt_two_pow
      (rotl64_lt 21 (Nat.xor_lt_two_pow (rotl64_lt 16 h3) (wrap64_lt _)))
      (wrap64_lt _)

theorem sipCompress_bounded {s : SipState} {m : Nat}
    (h1 : s.v1 < 2 ^ 64) (h3 : s.v3 < 2 ^ 64) (hm : m < 2 ^ 64) :
    (sipCompress s m).v0 < 2 ^ 64 ∧ (sipCompress s m).v1 < 2 ^ 64
    ∧ (sipCompress s m).v2 < 2 ^ 64 ∧ (sipCompress s m).v3 < 2 ^ 64 := by
  unfold sipCompress
  have hr := sipRound_bounded (s := { s with v3 := s.v3 ^^^ m }) h1
    (Nat.xor_lt_two_pow h3 hm)
  exact ⟨Nat.xor_lt_two_pow hr.1 hm, hr.2.1, hr.2.2.1, hr.2.2.2⟩

theorem leWord_lt : ∀ (bytes : List Nat), (∀ b ∈ bytes, b < 256) →
    leWord bytes < 256 ^ bytes.length := by
  intro bytes
  induction bytes with
  | nil => intro _; simp [leWord]
  | cons b t ih =>
      intro h
      have hb : b < 256 := h b (List.mem_cons_self b t)
      have ht := ih (fun x hx => h x (List.mem_cons_of_mem b hx))
      simp only [leWord, List.foldr_cons, List.length_cons] at *
      rw [pow_succ, Nat.mul_comm (256 ^ t.length) 256]
      omega

theorem sipProcess_spec :
    ∀ (s : SipState) (data : List Nat), (∀ b ∈ data, b < 256) →
      s.v1 < 2 ^ 64 → s.v3 < 2 ^ 64 →
      ((sipProcess s data).1.v1 < 2 ^ 64 ∧ (sipProcess s data).1.v3 < 2 ^ 64)
      ∧ (∀ b ∈ (sipProcess s data).2, b < 256)
      ∧ (sipProcess s data).2.length < 8 := by
  intro s data
  induction s, data using sipProcess.induct with
  | case1 s b0 b1 b2 b3 b4 b5 b6 b7 rest ih =>
      intro hdata h1 h3
      have hword : leWord [b0, b1, b2, b3, b4, b5, b6, b7] < 2 ^ 64 := by
        have := leWord_lt [b0, b1, b2, b3, b4, b5, b6, b7]
          (by intro b hb; apply hdata; simp at hb ⊢; tauto)
        norm_num at this ⊢
        omega
      have hc := sipCompress_bounded (s := s)
        (m := leWord [b0, b1, b2, b3, b4, b5, b6, b7]) h1 h3 hword
      have hrest : ∀ b ∈ rest, b < 256 := by
        intro b hb; apply hdata; simp [hb]
      have := ih hrest hc.2.1 hc.2.2.2
      simpa [sipProcess] using this
  | case2 s rest h =>
      intro hdata h1 h3
      rcases rest with _ | ⟨a0, _ | ⟨a1, _ | ⟨a2, _ | ⟨a3, _ | ⟨a4, _ |
        ⟨a5, _ | ⟨a6, _ | ⟨a7, t⟩⟩⟩⟩⟩⟩⟩⟩ <;>
        first
        | exact ⟨⟨h1, h3⟩, hdata, of_decide_eq_true rfl⟩
        | exact (h _ _ _ _ _ _ _ _ _ rfl).elim

theorem char_toNat_lt (c : Char) : c.toNat < 0x110000 := by
  have h := c.valid
  unfold Char.toNat
  rcases h with h | ⟨_, h⟩ <;> omega

theorem charUtf8Bytes_lt (c : Char) : ∀ b ∈ charUtf8Bytes c, b < 256 := by
  have hv := char_toNat_lt c
  intro b hb
  unfold charUtf8Bytes at hb
  by_cases h1 : c.toNat < 0x80
  · rw [if_pos h1] at hb
    simp only [List.mem_singleton] at hb
    omega
  · rw [if_neg h1] at hb
    by_cases h2 : c.toNat < 0x800
    · rw [if_pos h2] at hb
      have hs : c.toNat >>> 6 < 32 := by
        rw [Nat.shiftRight_eq_div_pow]
        omega
      have hm : c.toNat &&& 0x3F < 64 :=
        Nat.lt_succ_of_le (Nat.and_le_right.trans (by norm_num))
      simp only [List.mem_cons, List.mem_singleton] at hb
      rcases hb with rfl | rfl | h
      · exact Nat.or_lt_two_pow (n := 8) (by norm_num) (by omega)
      · exact Nat.or_lt_two_pow (n := 8) (by norm_num) (by omega)
      · exact absurd h (by simp)
    · rw [if_neg h2] at hb
      by_cases h3 : c.toNat < 0x10000
      · rw [if_pos h3] at hb
        have hs : c.toNat >>> 12 < 16 := by
          rw [Nat.shiftRight_eq_div_pow]
          omega
        have hm1 : (c.toNat >>> 6) &&& 0x3F < 64 :=
          Nat.lt_succ_of_le (Nat.and_le_right.trans (by norm_num))
        have hm2 : c.toNat &&& 0x3F < 64 :=
          Nat.lt_succ_of_le (Nat.and_le_right.trans (by norm_num))
        simp only [List.mem_cons, List.mem_singleton] at hb
        rcases hb with rfl | rfl | rfl | h
        · exact Nat.or_lt_two_pow (n := 8) (by norm_num) (by omega)
        · exact Nat.or_lt_two_pow (n := 8) (by norm_num) (by omega)
        · exact Nat.or_lt_two_pow (n := 8) (by norm_num) (by omega)
        · exact absurd h (by simp)
      · rw [if_neg h3] at hb
        have hs : c.toNat >>> 18 < 8 := by
          rw [Nat.shiftRight_eq_div_pow]
          omega
        have hm1 : (c.toNat >>> 12) &&& 0x3F < 64 :=
          Nat.lt_succ_of_le (Nat.and_le_right.trans (by norm_num))
        have hm2 : (c.toNat >>> 6) &&& 0x3F < 64 :=
          Nat.lt_succ_of_le (Nat.and_le_right.trans (by norm_num))
        have hm3 : c.toNat &&& 0x3F < 64 :=
          Nat.lt_succ_of_le (Nat.and_le_right.trans (by norm_num))
        simp only [List.mem_cons, List.mem_singleton] at hb
        rcases hb with rfl | rfl | rfl | rfl | h
        · exact Nat.or_lt_two_pow (n := 8) (by norm_num) (by omega)
        · exact Nat.or_lt_two_pow (n := 8) (by norm_num) (by omega)
        · exact Nat.or_lt_two_pow (n := 8) (by norm_num) (by omega)
        · exact Nat.or_lt_two_pow (n := 8) (by norm_num) (by omega)
        · exact absurd h (by simp)

theorem stringUtf8Bytes_lt (s : String) : ∀ b ∈ stringUtf8Bytes s, b < 256 := by
  intro b hb
  unfold stringUtf8Bytes at hb
  rw [List.mem_flatMap] at hb
  obtain ⟨c, _, hc⟩ := hb
  exact charUtf8Bytes_lt c b hc

theorem u32LEBytes_lt (n : Nat) : ∀ b ∈ u32LEBytes n, b < 256 := by
  intro b hb
  unfold u32LEBytes at hb
  simp only [List.mem_cons, List.mem_singleton] at hb
  rcases hb with rfl | rfl | rfl | rfl | h
  · omega
  · omega
  · omega
  · omega
  · exact absurd h (by simp)

theorem u64LEBytes_lt (n : Nat) : ∀ b ∈ u64LEBytes n, b < 256 := by
  intro b hb
  unfold u64LEBytes at hb
  simp only [List.mem_cons, List.mem_singleton, Nat.shiftRight_eq_div_pow] at hb
  rcases hb with rfl | rfl | rfl | rfl | rfl | rfl | rfl | rfl | h
  all_goals first
  | omega
  | exact absurd h (by simp)

theorem cacheHashStream_bytes (request : AiRequest) :
    ∀ b ∈ cacheHashStream request, b < 256 := by
  unfold cacheHashStream
  refine List.forall_mem_append.mpr ⟨?_, ?_⟩
  · refine List.forall_mem_append.mpr ⟨?_, ?_⟩
    · refine List.forall_mem_append.mpr ⟨?_, u64LEBytes_lt _⟩
      refine List.forall_mem_append.mpr ⟨stringUtf8Bytes_lt _, ?_⟩
      intro b hb
      simp only [List.mem_singleton] at hb
      omega
    · cases request.options.temperature with
      | none => intro b hb; simp at hb
      | some bits => exact u32LEBytes_lt bits
  · cases request.options.max_tokens with
    | none => intro b hb; simp at hb
    | some mt => exact u64LEBytes_lt mt

theorem sipHash13_lt (data : List Nat) (hdata : ∀ b ∈ data, b < 256) :
    sipHash13 0 0 data < 2 ^ 64 := by
  have hp := sipProcess_spec ⟨0 ^^^ 0x736f6d6570736575, 0 ^^^ 0x646f72616e646f6d,
    0 ^^^ 0x6c7967656e657261, 0 ^^^ 0x7465646279746573⟩ data hdata
    (by decide) (by decide)
  unfold sipHash13
  set pr := sipProcess ⟨0 ^^^ 0x736f6d6570736575, 0 ^^^ 0x646f72616e646f6d,
    0 ^^^ 0x6c7967656e657261, 0 ^^^ 0x7465646279746573⟩ data with hprdef
  set b := ((data.length % 256) <<< 56) ||| leWord pr.2 with hbdef
  have hb : b < 2 ^ 64 := by
    rw [hbdef]
    refine Nat.or_lt_two_pow ?_ ?_
    · rw [Nat.shiftLeft_eq]
      have hm : data.length % 256 < 256 := by omega
      calc data.length % 256 * 2 ^ 56 < 256 * 2 ^ 56 :=
            (Nat.mul_lt_mul_right (by norm_num : (0 : Nat) < 2 ^ 56)).mpr hm
        _ = 2 ^ 64 := by norm_num
    · calc leWord pr.2 < 256 ^ pr.2.length := leWord_lt _ hp.2.1
        _ ≤ 256 ^ 7 := Nat.pow_le_pow_right (by norm_num) (by omega)
        _ < 2 ^ 64 := by norm_num
  have hc := sipCompress_bounded (s := pr.1) (m := b) hp.1.1 hp.1.2 hb
  set s2 := sipCompress pr.1 b with hs2def
  set s3 : SipState := { s2 with v2 := s2.v2 ^^^ 0xff } with hs3def
  have h3b := sipRound_bounded (s := s3) hc.2.1 hc.2.2.2
  have h2b := sipRound_bounded h3b.2.1 h3b.2.2.2
  have h1b := sipRound_bounded h2b.2.1 h2b.2.2.2
  exact Nat.xor_lt_two_pow (Nat.xor_lt_two_pow (Nat.xor_lt_two_pow
    h1b.1 h1b.2.1) h1b.2.2.1) h1b.2.2.2

/-- The cache key is a function of only the four fingerprint-relevant
fields. -/
theorem cacheKey_congr {r1 r2 : AiRequest}
    (hp : r1.prompt = r2.prompt) (ht : r1.task_type = r2.task_type)
    (htemp : r1.options.temperature = r2.options.temperature)
    (hmax : r1.options.max_tokens = r2.options.max_tokens) :
    cache_key r1 = cache_key r2 := by
  unfold cache_key cacheHashStream
  rw [hp, ht, htemp, hmax]

/-- C4 counterexample: the claim is false — `cache_key` is the 64-bit
SipHash-1-3 digest of the fingerprint fields rendered in hex, so the
(infinitely many) requests that differ only in their prompt text map into
finitely many keys: by the pigeonhole principle two distinct prompts with
all other fingerprint-relevant fields equal share a cache key, and such a
request can be answered with the cached response of a different prompt. -/
theorem cache_key_not_injective_in_prompt :
    ∃ r1 r2 : AiRequest,
      r1.prompt ≠ r2.prompt
      ∧ r1.task_type = r2.task_type
      ∧ r1.options = r2.options
      ∧ r1.priority = r2.priority
      ∧ cache_key r1 = cache_key r2 := by
  have hbound : ∀ n : Nat,
      sipHash13 0 0 (cacheHashStream (mkPromptReq
        (String.mk (List.replicate n 'a')))) < 2 ^ 64 :=
    fun n => sipHash13_lt _ (cacheHashStream_bytes _)
  obtain ⟨a, b, hab, hfeq⟩ := Finite.exists_ne_map_eq_of_infinite
    (fun n : Nat => (⟨sipHash13 0 0 (cacheHashStream (mkPromptReq
      (String.mk (List.replicate n 'a')))), hbound n⟩ : Fin (2 ^ 64)))
  refine ⟨mkPromptReq (String.mk (List.replicate a 'a')),
    mkPromptReq (String.mk (List.replicate b 'a')), ?_, rfl, rfl, rfl, ?_⟩
  · intro h
    apply hab
    have := congrArg (fun s : String => s.data.length) h
    simpa [mkPromptReq, List.length_replicate] using this
  · have hdig : sipHash13 0 0 (cacheHashStream (mkPromptReq
        (String.mk (List.replicate a 'a'))))
        = sipHash13 0 0 (cacheHashStream (mkPromptReq
        (String.mk (List.replicate b 'a')))) :=
      congrArg Fin.val hfeq
    unfold cache_key
    rw [hdig]

/-- C4 (amended): the cache key is deterministic and depends on exactly the
fingerprint-relevant fields — two requests with equal prompt, task type,
temperature and max-tokens get the same key whatever their priority and
remaining option fields — but it is a 64-bit digest, so two requests
differing only in prompt text are not guaranteed distinct keys (a collision
exists by pigeonhole, see the counterexample); a false cache hit between
different prompts is possible in principle. -/
theorem cache_key_fingerprint_only (r1 r2 : AiRequest)
    (hp : r1.prompt = r2.prompt) (ht : r1.task_type = r2.task_type)
    (htemp : r1.options.temperature = r2.options.temperature)
    (hmax : r1.options.max_tokens = r2.options.max_tokens) :
    cache_key r1 = cache_key r2 :=
  cacheKey_congr hp ht htemp hmax

theorem cache_key_fingerprint_only_witness :
    cache_key (mkPromptReq "hello")
      = cache_key
          { prompt := "hello"
            task_type := .Chat
            options := { GenerationOptions.default with
                         top_p := none
                         stream := true }
            priority := .High } :=
  cache_key_fingerprint_only _ _ rfl rfl rfl rfl

theorem requestCache_get_insert (c : RequestCache) (k : String)
    (v : AiResponse) : (c.insert k v).get k = some v := by
  unfold RequestCache.insert RequestCache.get
  exact assocGet_insert_self k v _

/-- A successful `process_request` leaves the served response stored under
the request's cache key. -/
theorem process_request_caches (mgr mgr' : LlmManager)
    (cache cache' : RequestCache) (r : AiRequest) (resp : AiResponse) (n : Nat)
    (h : process_request mgr cache r = (.ok resp, mgr', cache', n)) :
    cache'.get (cache_key r) = some resp := by
  unfold process_request at h
  split at h
  next cached heq =>
    simp only [Prod.mk.injEq, Except.ok.injEq] at h
    obtain ⟨hresp, hmgr, hcache, hn⟩ := h
    rw [← hcache, ← hresp]
    exact heq
  next heq =>
    split at h
    next e mgr2 k hgen => simp at h
    next content mgr2 k hgen =>
      split at h
      next hcp => simp at h
      next pid hcp =>
        simp only [Prod.mk.injEq, Except.ok.injEq] at h
        obtain ⟨hresp, hmgr, hcache, hn⟩ := h
        rw [← hcache, hresp]
        exact requestCache_get_insert cache (cache_key r) resp

/-- C3: after a request `r1` has been processed successfully (its response
stored in, or served from, the request cache), a second request `r2` with
identical fingerprint-relevant fields (prompt, task type, temperature, max
tokens), submitted against the resulting state (before any eviction of
that entry), is answered from the cache with the same response and with no
provider `generate` call. -/
theorem process_request_second_identical_hit (mgr mgr' : LlmManager)
    (cache cache' : RequestCache) (r1 r2 : AiRequest) (resp : AiResponse)
    (n : Nat)
    (h1 : process_request mgr cache r1 = (.ok resp, mgr', cache', n))
    (hp : r1.prompt = r2.prompt) (ht : r1.task_type = r2.task_type)
    (htemp : r1.options.temperature = r2.options.temperature)
    (hmax : r1.options.max_tokens = r2.options.max_tokens) :
    process_request mgr' cache' r2 = (.ok resp, mgr', cache', 0) := by
  have hkey : cache_key r2 = cache_key r1 :=
    (cacheKey_congr hp ht htemp hmax).symm
  have hget : cache'.get (cache_key r1) = some resp :=
    process_request_caches mgr mgr' cache cache' r1 resp n h1
  unfold process_request
  rw [hkey, hget]

theorem process_request_second_identical_hit_witness :
    process_request (mkManager regTwo [] none)
        ⟨[(cache_key (mkPromptReq "hi"), mkResp "cached")], 1000⟩
        { prompt := "hi"
          task_type := .Chat
          options := { GenerationOptions.default with top_p := none }
          priority := .High }
      = (.ok (mkResp "cached"), mkManager regTwo [] none,
         ⟨[(cache_key (mkPromptReq "hi"), mkResp "cached")], 1000⟩, 0) :=
  process_request_second_identical_hit
    (mkManager regTwo [] none) (mkManager regTwo [] none)
    ⟨[(cache_key (mkPromptReq "hi"), mkResp "cached")], 1000⟩
    ⟨[(cache_key (mkPromptReq "hi"), mkResp "cached")], 1000⟩
    (mkPromptReq "hi")
    { prompt := "hi"
      task_type := .Chat
      options := { GenerationOptions.default with top_p := none }
      priority := .High }
    (mkResp "cached") 0 rfl rfl rfl rfl rfl

/-- `is_provider_healthy` returns the pure availability value
`healthyPure`, and its state update (a health-cache refresh) changes
neither the other manager fields nor the value of `healthyPure` at any
provider. -/
theorem is_provider_healthy_spec (st : LlmManager) (pid : ProviderId) :
    (st.is_provider_healthy pid).1 = healthyPure st pid
    ∧ (st.is_provider_healthy pid).2.registry = st.registry
    ∧ (st.is_provider_healthy pid).2.current_provider = st.current_provider
    ∧ (st.is_provider_healthy pid).2.fallback_chain = st.fallback_chain
    ∧ (st.is_provider_healthy pid).2.environment = st.environment
    ∧ (st.is_provider_healthy pid).2.auto_detect = st.auto_detect
    ∧ (st.is_provider_healthy pid).2.codev_local_env_var
        = st.codev_local_env_var
    ∧ (∀ q, healthyPure (st.is_provider_healthy pid).2 q
        = healthyPure st q) := by
  unfold LlmManager.is_provider_healthy
  rcases hc : assocGet st.health_status pid with _ | ⟨status, fresh⟩
  · dsimp only
    unfold LlmManager.perform_health_check
    rcases hr : st.registry.get pid with _ | p
    · refine ⟨?_, rfl, rfl, rfl, rfl, rfl, rfl, fun q => rfl⟩
      unfold healthyPure
      rw [hc, hr]
    · dsimp only
      rcases hh : p.health_check with e | s
      · dsimp only
        refine ⟨?_, rfl, rfl, rfl, rfl, rfl, rfl, fun q => ?_⟩
        · unfold healthyPure
          simp [hc, hr, hh, HealthStatus.is_available]
        · unfold healthyPure
          by_cases hq : pid = q
          · subst hq
            simp [hc, hr, hh, assocGet_insert_self, HealthStatus.is_available]
          · rw [assocGet_insert_ne _ _ _ hq]
      · dsimp only
        refine ⟨?_, rfl, rfl, rfl, rfl, rfl, rfl, fun q => ?_⟩
        · unfold healthyPure
          simp [hc, hr, hh, HealthStatus.is_available]
        · unfold healthyPure
          by_cases hq : pid = q
          · subst hq
            simp [hc, hr, hh, assocGet_insert_self, HealthStatus.is_available]
          · rw [assocGet_insert_ne _ _ _ hq]
  · cases fresh
    · dsimp only
      unfold LlmManager.perform_health_check
      rcases hr : st.registry.get pid with _ | p
      · refine ⟨?_, rfl, rfl, rfl, rfl, rfl, rfl, fun q => rfl⟩
        unfold healthyPure
        rw [hc, hr]
      · dsimp only
        rcases hh : p.health_check with e | s
        · dsimp only
          refine ⟨?_, rfl, rfl, rfl, rfl, rfl, rfl, fun q => ?_⟩
          · unfold healthyPure
            simp [hc, hr, hh, HealthStatus.is_available]
          · unfold healthyPure
            by_cases hq : pid = q
            · subst hq
              simp [hc, hr, hh, assocGet_insert_self, HealthStatus.is_available]
            · rw [assocGet_insert_ne _ _ _ hq]
        · dsimp only
          refine ⟨?_, rfl, rfl, rfl, rfl, rfl, rfl, fun q => ?_⟩
          · unfold healthyPure
            simp [hc, hr, hh, HealthStatus.is_available]
          · unfold healthyPure
            by_cases hq : pid = q
            · subst hq
              simp [hc, hr, hh, assocGet_insert_self, HealthStatus.is_available]
            · rw [assocGet_insert_ne _ _ _ hq]
    · refine ⟨?_, rfl, rfl, rfl, rfl, rfl, rfl, fun q => rfl⟩
      unfold healthyPure
      rw [hc]

theorem selectAnyEnabled_cons (st : LlmManager) (p : LlmProviderObj)
    (rest : List LlmProviderObj) :
    selectAnyEnabled st (p :: rest)
      = (if (st.is_provider_healthy p.id).1 then
          (.ok p.id, { (st.is_provider_healthy p.id).2 with
            current_provider := some p.id })
        else selectAnyEnabled (st.is_provider_healthy p.id).2 rest) := rfl

theorem selectFromChain_nil (st : LlmManager) (enabled : List LlmProviderObj) :
    selectFromChain st enabled [] = selectAnyEnabled st enabled := rfl

theorem selectFromChain_cons (st : LlmManager) (enabled : List LlmProviderObj)
    (provider_id : ProviderId) (rest : List ProviderId) :
    selectFromChain st enabled (provider_id :: rest)
      = (match st.registry.get provider_id with
         | some _ =>
             if (st.is_provider_healthy provider_id).1 then
               (.ok provider_id, { (st.is_provider_healthy provider_id).2 with
                 current_provider := some provider_id })
             else selectFromChain (st.is_provider_healthy provider_id).2
               enabled rest
         | none => selectFromChain st enabled rest) := rfl

theorem auto_select_provider_def (st : LlmManager) :
    st.auto_select_provider
      = (if st.environment = .Development || st.is_local_environment then
          match st.registry.get .Ollama with
          | some _ =>
              if (st.is_provider_healthy .Ollama).1 then
                (.ok .Ollama, { (st.is_provider_healthy .Ollama).2 with
                  current_provider := some ProviderId.Ollama })
              else selectFromChain (st.is_provider_healthy .Ollama).2
                st.registry.enabled_providers
                ((st.is_provider_healthy .Ollama).2).fallback_chain
          | none => selectFromChain st st.registry.enabled_providers
              st.fallback_chain
        else selectFromChain st st.registry.enabled_providers
          st.fallback_chain) := rfl

theorem get_available_provider_def (st : LlmManager) :
    st.get_available_provider
      = (match st.current_provider with
         | some current =>
             if (st.is_provider_healthy current).1 then
               (.ok current, (st.is_provider_healthy current).2)
             else ((st.is_provider_healthy current).2).auto_select_provider
         | none => st.auto_select_provider) := rfl

/-- When no provider is available, the last-resort walk fails with
`NoProviderAvailable` and preserves unavailability. -/
theorem selectAnyEnabled_all_unhealthy :
    ∀ (l : List LlmProviderObj) (st : LlmManager),
      (∀ pid, healthyPure st pid = false) →
      (selectAnyEnabled st l).1
          = .error (AiError.toCodevError .NoProviderAvailable)
      ∧ (∀ pid, healthyPure (selectAnyEnabled st l).2 pid = false) := by
  intro l
  induction l with
  | nil => intro st hall; exact ⟨rfl, hall⟩
  | cons p rest ih =>
      intro st hall
      have hip := is_provider_healthy_spec st p.id
      have hfalse : (st.is_provider_healthy p.id).1 = false := by
        rw [hip.1, hall p.id]
      rw [selectAnyEnabled_cons, hfalse]
      simp only [Bool.false_eq_true, if_false]
      exact ih _ (fun pid => by rw [hip.2.2.2.2.2.2.2 pid, hall pid])

/-- When no provider is available, the fallback-chain walk fails with
`NoProviderAvailable` and preserves unavailability. -/
theorem selectFromChain_all_unhealthy :
    ∀ (chain : List ProviderId) (st : LlmManager)
      (enabled : List LlmProviderObj),
      (∀ pid, healthyPure st pid = false) →
      (selectFromChain st enabled chain).1
          = .error (AiError.toCodevError .NoProviderAvailable)
      ∧ (∀ pid, healthyPure (selectFromChain st enabled chain).2 pid
          = false) := by
  intro chain
  induction chain with
  | nil =>
      intro st enabled hall
      rw [selectFromChain_nil]
      exact selectAnyEnabled_all_unhealthy enabled st hall
  | cons provider_id rest ih =>
      intro st enabled hall
      rw [selectFromChain_cons]
      rcases hr : st.registry.get provider_id with _ | p
      · exact ih st enabled hall
      · have hip := is_provider_healthy_spec st provider_id
        have hfalse : (st.is_provider_healthy provider_id).1 = false := by
          rw [hip.1, hall provider_id]
        rw [hfalse]
        simp only [Bool.false_eq_true, if_false]
        exact ih _ enabled
          (fun pid => by rw [hip.2.2.2.2.2.2.2 pid, hall pid])

/-- When no provider is available, `auto_select_provider` fails with
`NoProviderAvailable` and preserves unavailability. -/
theorem auto_select_all_unhealthy (st : LlmManager)
    (hall : ∀ pid, healthyPure st pid = false) :
    (st.auto_select_provider).1
        = .error (AiError.toCodevError .NoProviderAvailable)
    ∧ (∀ pid, healthyPure (st.auto_select_provider).2 pid = false) := by
  rw [auto_select_provider_def]
  by_cases hguard : (st.environment = .Development || st.is_local_environment)
      = true
  · rw [if_pos hguard]
    rcases hr : st.registry.get .Ollama with _ | p
    · exact selectFromChain_all_unhealthy _ st _ hall
    · have hip := is_provider_healthy_spec st .Ollama
      have hfalse : (st.is_provider_healthy .Ollama).1 = false := by
        rw [hip.1, hall .Ollama]
      rw [hfalse]
      simp only [Bool.false_eq_true, if_false]
      exact selectFromChain_all_unhealthy _ _ _
        (fun pid => by rw [hip.2.2.2.2.2.2.2 pid, hall pid])
  · rw [if_neg hguard]
    exact selectFromChain_all_unhealthy _ st _ hall

/-- When no provider is available, `get_available_provider` fails with
`NoProviderAvailable`. -/
theorem get_available_all_unhealthy (st : LlmManager)
    (hall : ∀ pid, healthyPure st pid = false) :
    (st.get_available_provider).1
        = .error (AiError.toCodevError .NoProviderAvailable) := by
  rw [get_available_provider_def]
  rcases hcp : st.current_provider with _ | current
  · exact (auto_select_all_unhealthy st hall).1
  · dsimp only
    have hip := is_provider_healthy_spec st current
    have hfalse : (st.is_provider_healthy current).1 = false := by
      rw [hip.1, hall current]
    rw [hfalse]
    simp only [Bool.false_eq_true, if_false]
    exact (auto_select_all_unhealthy _
      (fun pid => by rw [hip.2.2.2.2.2.2.2 pid, hall pid])).1

theorem mem_enabled_providers {r : ProviderRegistry} {provider_id : ProviderId}
    {p : LlmProviderObj}
    (hmem : (provider_id, p) ∈ r.providers)
    (hen : r.is_enabled provider_id = true) :
    p ∈ r.enabled_providers := by
  unfold ProviderRegistry.enabled_providers
  refine List.mem_map.mpr ⟨(provider_id, p), List.mem_filter.mpr ⟨hmem, ?_⟩, rfl⟩
  unfold ProviderRegistry.is_enabled at hen
  simpa using hen

/-- The claim-level premises — every registered provider enabled (the
factory invariant), every enabled provider's check yielding an unavailable
verdict or failing, and no fresh available verdict in the health cache —
make every provider unavailable in the `healthyPure` sense. -/
theorem all_unhealthy_of_premises (st : LlmManager)
    (h_reg_enabled : ∀ pr ∈ st.registry.providers,
      st.registry.is_enabled pr.1 = true)
    (h_checks : ∀ p ∈ st.registry.enabled_providers, checkUnavailable p = true)
    (h_cache : ∀ entry ∈ st.health_status,
      entry.2.2 = true → entry.2.1.is_available = false) :
    ∀ pid, healthyPure st pid = false := by
  intro pid
  unfold healthyPure
  rcases hc : assocGet st.health_status pid with _ | ⟨status, fresh⟩
  · rcases hr : st.registry.get pid with _ | p
    · rfl
    · have hmem : (pid, p) ∈ st.registry.providers := assocGet_some_mem hr
      have hp := h_checks p
        (mem_enabled_providers hmem (h_reg_enabled _ hmem))
      unfold checkUnavailable at hp
      dsimp only
      rcases hh : p.health_check with e | s
      · rfl
      · rw [hh] at hp
        simpa using hp
  · cases fresh
    · rcases hr : st.registry.get pid with _ | p
      · rfl
      · have hmem : (pid, p) ∈ st.registry.providers := assocGet_some_mem hr
        have hp := h_checks p
          (mem_enabled_providers hmem (h_reg_enabled _ hmem))
        unfold checkUnavailable at hp
        dsimp only
        rcases hh : p.health_check with e | s
        · rfl
        · rw [hh] at hp
          simpa using hp
    · exact h_cache (pid, (status, true)) (assocGet_some_mem hc) rfl

/-- C2: if every enabled backend's health check yields an Unhealthy verdict
or fails outright (with the registry registering only enabled providers, as
the factory guarantees, and no stale-coherence violation: every fresh
health-cache verdict is also unavailable), then `generate` returns the
aggregate `NoProviderAvailable` error — surfaced as the converted
`LlmProvider` error — and performs no provider `generate` call. -/
theorem generate_all_unhealthy_no_provider (st : LlmManager) (prompt : String)
    (options : GenerationOptions)
    (h_reg_enabled : ∀ pr ∈ st.registry.providers,
      st.registry.is_enabled pr.1 = true)
    (h_checks : ∀ p ∈ st.registry.enabled_providers, checkUnavailable p = true)
    (h_cache : ∀ entry ∈ st.health_status,
      entry.2.2 = true → entry.2.1.is_available = false) :
    (st.generate prompt options).1
        = .error (AiError.toCodevError .NoProviderAvailable)
    ∧ (st.generate prompt options).2.2 = 0 := by
  have hall := all_unhealthy_of_premises st h_reg_enabled h_checks h_cache
  have hga := get_available_all_unhealthy st hall
  unfold LlmManager.generate
  rcases hga2 : st.get_available_provider with ⟨res, st2⟩
  rw [hga2] at hga
  dsimp only at hga
  rw [hga]
  exact ⟨rfl, rfl⟩

theorem generate_all_unhealthy_no_provider_witness :
    ((mkManager regUnhealthy [ProviderId.Claude] none).generate "hi"
        GenerationOptions.default).1
      = .error (CodevError.LlmProvider .Ollama
          "no AI provider is currently available")
    ∧ ((mkManager regUnhealthy [ProviderId.Claude] none).generate "hi"
        GenerationOptions.default).2.2 = 0 :=
  generate_all_unhealthy_no_provider (mkManager regUnhealthy [.Claude] none)
    "hi" GenerationOptions.default
    (by decide) (by decide) (by decide)

/-- `is_provider_healthy` ignores the mutable `current_provider` cell and
the unread `auto_detect` flag. -/
theorem is_provider_healthy_ignores (st : LlmManager) (c : Option ProviderId)
    (a : Bool) (pid : ProviderId) :
    ({ st with current_provider := c, auto_detect := a } :
        LlmManager).is_provider_healthy pid
      = ((st.is_provider_healthy pid).1,
         { (st.is_provider_healthy pid).2 with
           current_provider := c, auto_detect := a }) := by
  unfold LlmManager.is_provider_healthy LlmManager.perform_health_check
  dsimp only
  rcases hc : assocGet st.health_status pid with _ | ⟨status, fresh⟩
  · rcases hr : st.registry.get pid with _ | p
    · rfl
    · dsimp only
      rcases hh : p.health_check with e | s <;> rfl
  · cases fresh
    · dsimp only
      rcases hr : st.registry.get pid with _ | p
      · rfl
      · dsimp only
        rcases hh : p.health_check with e | s <;> rfl
    · rfl

/-- The last-resort walk ignores `current_provider` and `auto_detect`. -/
theorem selectAnyEnabled_ignores :
    ∀ (l : List LlmProviderObj) (st : LlmManager) (c : Option ProviderId)
      (a : Bool),
      (selectAnyEnabled { st with current_provider := c, auto_detect := a }
        l).1 = (selectAnyEnabled st l).1 := by
  intro l
  induction l with
  | nil => intro st c a; rfl
  | cons p rest ih =>
      intro st c a
      rw [selectAnyEnabled_cons, selectAnyEnabled_cons,
        is_provider_healthy_ignores]
      dsimp only
      by_cases h : (st.is_provider_healthy p.id).1 = true
      · rw [h]
        rfl
      · rw [Bool.not_eq_true] at h
        rw [h]
        simp only [Bool.false_eq_true, if_false]
        exact ih _ c a

/-- The fallback-chain walk ignores `current_provider` and `auto_detect`. -/
theorem selectFromChain_ignores :
    ∀ (chain : List ProviderId) (st : LlmManager)
      (enabled : List LlmProviderObj) (c : Option ProviderId) (a : Bool),
      (selectFromChain { st with current_provider := c, auto_detect := a }
        enabled chain).1 = (selectFromChain st enabled chain).1 := by
  intro chain
  induction chain with
  | nil => intro st enabled c a; exact selectAnyEnabled_ignores enabled st c a
  | cons provider_id rest ih =>
      intro st enabled c a
      rw [selectFromChain_cons, selectFromChain_cons]
      dsimp only
      rcases hr : st.registry.get provider_id with _ | p
      · exact ih st enabled c a
      · rw [is_provider_healthy_ignores]
        dsimp only
        by_cases h : (st.is_provider_healthy provider_id).1 = true
        · rw [h]
          rfl
        · rw [Bool.not_eq_true] at h
          rw [h]
          simp only [Bool.false_eq_true, if_false]
          exact ih _ enabled c a

/-- The selection algorithm ignores `current_provider` and `auto_detect`:
its chosen identity is a function of the registry, the health snapshot and
the fixed configuration only. -/
theorem auto_select_ignores (st : LlmManager) (c : Option ProviderId)
    (a : Bool) :
    (({ st with current_provider := c, auto_detect := a } :
        LlmManager).auto_select_provider).1
      = (st.auto_select_provider).1 := by
  rw [auto_select_provider_def, auto_select_provider_def]
  dsimp only
  have hloc : ({ st with current_provider := c, auto_detect := a } :
      LlmManager).is_local_environment = st.is_local_environment := rfl
  rw [hloc]
  by_cases hguard : (st.environment = .Development || st.is_local_environment)
      = true
  · rw [if_pos hguard, if_pos hguard]
    rcases hr : st.registry.get .Ollama with _ | p
    · exact selectFromChain_ignores _ st _ c a
    · rw [is_provider_healthy_ignores]
      dsimp only
      by_cases h : (st.is_provider_healthy .Ollama).1 = true
      · rw [h]
        rfl
      · rw [Bool.not_eq_true] at h
        rw [h]
        simp only [Bool.false_eq_true, if_false]
        exact selectFromChain_ignores _ _ _ c a
  · rw [if_neg hguard, if_neg hguard]
    exact selectFromChain_ignores _ st _ c a

/-- The last-resort walk selects exactly the first provider of the list
whose health probe succeeds, judged by the pure availability predicate of a
reference state `st₀` that the walked state agrees with. -/
theorem selectAnyEnabled_find :
    ∀ (l : List LlmProviderObj) (st st₀ : LlmManager),
      (∀ q, healthyPure st q = healthyPure st₀ q) →
      (selectAnyEnabled st l).1
        = (match l.find? (fun p => healthyPure st₀ p.id) with
           | some p => .ok p.id
           | none => .error (AiError.toCodevError .NoProviderAvailable)) := by
  intro l
  induction l with
  | nil => intro st st₀ heq; rfl
  | cons p rest ih =>
      intro st st₀ heq
      have hip := is_provider_healthy_spec st p.id
      rw [selectAnyEnabled_cons]
      by_cases hp0 : healthyPure st₀ p.id = true
      · have h1 : (st.is_provider_healthy p.id).1 = true := by
          rw [hip.1, heq p.id, hp0]
        have hfind : List.find? (fun p => healthyPure st₀ p.id) (p :: rest)
            = some p := List.find?_cons_of_pos _ hp0
        rw [h1, hfind]
        rfl
      · have h1 : (st.is_provider_healthy p.id).1 = false := by
          rw [hip.1, heq p.id]
          exact Bool.not_eq_true _ |>.mp hp0
        have hfind : List.find? (fun p => healthyPure st₀ p.id) (p :: rest)
            = List.find? (fun p => healthyPure st₀ p.id) rest :=
          List.find?_cons_of_neg _ (by simpa using hp0)
        rw [h1, hfind]
        simp only [Bool.false_eq_true, if_false]
        exact ih _ st₀
          (fun q => by rw [hip.2.2.2.2.2.2.2 q, heq q])

/-- When no fallback-chain entry is both registered and available, the walk
falls through to the last-resort scan of the enabled providers. -/
theorem selectFromChain_find :
    ∀ (chain : List ProviderId) (st st₀ : LlmManager)
      (enabled : List LlmProviderObj),
      st.registry = st₀.registry →
      (∀ q, healthyPure st q = healthyPure st₀ q) →
      (∀ pid ∈ chain, (st₀.registry.get pid).isSome = true →
        healthyPure st₀ pid = false) →
      (selectFromChain st enabled chain).1
        = (match enabled.find? (fun p => healthyPure st₀ p.id) with
           | some p => .ok p.id
           | none => .error (AiError.toCodevError .NoProviderAvailable)) := by
  intro chain
  induction chain with
  | nil =>
      intro st st₀ enabled _ heq _
      rw [selectFromChain_nil]
      exact selectAnyEnabled_find enabled st st₀ heq
  | cons provider_id rest ih =>
      intro st st₀ enabled hreg heq hchain
      rw [selectFromChain_cons, hreg]
      rcases hr : st₀.registry.get provider_id with _ | p
      · exact ih st st₀ enabled hreg heq
          (fun pid hpid => hchain pid (List.mem_cons_of_mem _ hpid))
      · have hfail : healthyPure st₀ provider_id = false :=
          hchain provider_id (List.mem_cons_self _ _) (by rw [hr]; rfl)
        have hip := is_provider_healthy_spec st provider_id
        have h1 : (st.is_provider_healthy provider_id).1 = false := by
          rw [hip.1, heq provider_id, hfail]
        rw [h1]
        simp only [Bool.false_eq_true, if_false]
        exact ih _ st₀ enabled (by rw [hip.2.1, hreg])
          (fun q => by rw [hip.2.2.2.2.2.2.2 q, heq q])
          (fun pid hpid => hchain pid (List.mem_cons_of_mem _ hpid))

/-- C1 counterexample: the last-resort step does not walk the enabled
backends in registration order.  `regTwoHealthy` registers a healthy
Claude and then a healthy Mistral; `regTwoHealthyAlt` holds exactly the
same map contents — every provider lookup and every config lookup agrees
— under the other iteration order, which is an equally legitimate `std`
`HashMap` state for that same registration history, since `HashMap`
iteration order is arbitrary per instance and unrelated to insertion
order.  With both backends available and neither the local-preference
step nor the (empty) fallback chain yielding a backend, selection over
the first registry picks Claude while selection over the second picks
Mistral: the last-resort result follows the map's iteration order, so
registration order does not determine the selected backend and the
claim's registration-order conjunct is false of the program. -/
theorem auto_select_not_registration_order :
    (regTwoHealthy.get .Ollama = regTwoHealthyAlt.get .Ollama
      ∧ regTwoHealthy.get .OpenAI = regTwoHealthyAlt.get .OpenAI
      ∧ regTwoHealthy.get .Claude = regTwoHealthyAlt.get .Claude
      ∧ regTwoHealthy.get .Mistral = regTwoHealthyAlt.get .Mistral
      ∧ regTwoHealthy.get .Gemini = regTwoHealthyAlt.get .Gemini)
    ∧ (assocGet regTwoHealthy.configs .Ollama
          = assocGet regTwoHealthyAlt.configs .Ollama
      ∧ assocGet regTwoHealthy.configs .OpenAI
          = assocGet regTwoHealthyAlt.configs .OpenAI
      ∧ assocGet regTwoHealthy.configs .Claude
          = assocGet regTwoHealthyAlt.configs .Claude
      ∧ assocGet regTwoHealthy.configs .Mistral
          = assocGet regTwoHealthyAlt.configs .Mistral
      ∧ assocGet regTwoHealthy.configs .Gemini
          = assocGet regTwoHealthyAlt.configs .Gemini)
    ∧ ((mkManager regTwoHealthy [] none).auto_select_provider).1
        = .ok ProviderId.Claude
    ∧ ((mkManager regTwoHealthyAlt [] none).auto_select_provider).1
        = .ok ProviderId.Mistral :=
  ⟨⟨rfl, rfl, rfl, rfl, rfl⟩, ⟨rfl, rfl, rfl, rfl, rfl⟩, rfl, rfl⟩

/-- C1 (amended): provider selection is deterministic per registry
instance — for a fixed registry value (contents together with its
iteration order), fixed health-cache snapshot and fixed configuration
(fallback chain, environment, environment-variable marker), two runs of
`auto_select_provider` from any two such states (their mutable
`current_provider` cells and unread `auto_detect` flags may differ) pick
the same backend identity; and when neither the local-preference step nor
the fallback chain yields a backend, the last-resort step walks the
enabled providers in the registry map's iteration order — arbitrary for a
`HashMap`, not registration order — and selects the first available one,
failing with `NoProviderAvailable` when none is. -/
theorem auto_select_deterministic_and_last_resort (st st₂ : LlmManager)
    (hreg : st.registry = st₂.registry)
    (hhs : st.health_status = st₂.health_status)
    (hchain : st.fallback_chain = st₂.fallback_chain)
    (henv : st.environment = st₂.environment)
    (hvar : st.codev_local_env_var = st₂.codev_local_env_var) :
    (st.auto_select_provider).1 = (st₂.auto_select_provider).1
    ∧ (¬ ((st.environment = .Development ∨ st.is_local_environment = true)
          ∧ (st.registry.get .Ollama).isSome = true
          ∧ healthyPure st .Ollama = true) →
       (∀ pid ∈ st.fallback_chain,
          (st.registry.get pid).isSome = true → healthyPure st pid = false) →
       (st.auto_select_provider).1
         = (match st.registry.enabled_providers.find?
              (fun p => healthyPure st p.id) with
            | some p => .ok p.id
            | none => .error (AiError.toCodevError .NoProviderAvailable))) := by
  constructor
  · have hst2 : st₂
        = { st with
            current_provider := st₂.current_provider
            auto_detect := st₂.auto_detect } := by
      cases st
      cases st₂
      simp_all
    rw [hst2]
    exact (auto_select_ignores st st₂.current_provider st₂.auto_detect).symm
  · intro hstep1 hstep2
    rw [auto_select_provider_def]
    by_cases hguard : (st.environment = .Development
        || st.is_local_environment) = true
    · rw [if_pos hguard]
      rcases hr : st.registry.get .Ollama with _ | p
      · exact selectFromChain_find _ st st _ rfl (fun q => rfl) hstep2
      · have hga : healthyPure st .Ollama = false := by
          rcases hcon : healthyPure st .Ollama with _ | _
          · rfl
          · exfalso
            apply hstep1
            refine ⟨?_, by rw [hr]; rfl, hcon⟩
            simpa [Bool.or_eq_true, decide_eq_true_iff] using hguard
        have hip := is_provider_healthy_spec st .Ollama
        have h1 : (st.is_provider_healthy .Ollama).1 = false := by
          rw [hip.1, hga]
        rw [h1]
        simp only [Bool.false_eq_true, if_false]
        refine selectFromChain_find _ _ st _ hip.2.1
          (fun q => hip.2.2.2.2.2.2.2 q) ?_
        rw [hip.2.2.2.1]
        exact hstep2
    · rw [if_neg hguard]
      exact selectFromChain_find _ st st _ rfl (fun q => rfl) hstep2

theorem auto_select_deterministic_and_last_resort_witness :
    ((mkManager regTwo [ProviderId.OpenAI] none).auto_select_provider).1
        = ((mkManager regTwo [ProviderId.OpenAI]
            (some .Gemini)).auto_select_provider).1
    ∧ ((mkManager regTwo [ProviderId.OpenAI] none).auto_select_provider).1
        = .ok ProviderId.Mistral := by
  have h := auto_select_deterministic_and_last_resort
    (mkManager regTwo [.OpenAI] none)
    (mkManager regTwo [.OpenAI] (some .Gemini)) rfl rfl rfl rfl rfl
  refine ⟨h.1, ?_⟩
  rw [h.2 (by decide) (by decide)]
  rfl
